import Mathlib

/-!
# Vim-NoCurser setup tool: patch steps over a file system

A shallow embedding of `src/NoCurser_Setup/setup.cpp` and a verification of its
specification against it.

## The embedding

* File contents are lists of characters (`Text`); the file system is an
  association list from paths to files with a readable and a writable flag; a
  `World` holds the files and the observable events (lines on `std::cout` and
  `std::cerr`, output streams opened), newest first.
* `replace_in_file` and `append_if_missing` are the two functions of the source,
  threading the world explicitly; `main` runs the steps of the source in order
  and stops at the first step that fails.
* `std::regex`, `std::regex_replace` and `std::string::find` belong to the C++
  standard library.  A pattern is read by `compile` (the default ECMAScript
  grammar; an invalid pattern gives `regex_error`, the exception that the
  constructor throws), matched by a backtracking matcher in the style of the
  ECMAScript specification (`Regex.run`), searched and replaced following
  `std::regex_iterator` (`regex_search`, `replaceLoop`, `regex_replace`) and
  formatted following `match_results::format` (`format`).  Without the
  `multiline` flag `^` matches at the beginning of the input only; `\s` and `\d`
  are the classes of the "C" locale; `.` refuses line feed and carriage return.
* The recursions of the matcher and of the replace loop carry a fuel that is
  computed from the length of the input; `starLoop_fuel` and `replaceLoop_fuel`
  show that it never runs out.

## Two facts about the source that the proofs bring out

* The pattern of step 3 has an unescaped opening brace, so constructing it
  throws `std::regex_error` (`compile_do_intro`); nothing catches the exception,
  a run therefore never gets past step 3 (`main_exit`).  The steps behind it are
  embedded and studied one at a time.
* The source file ends with a stray comment terminator after the closing brace
  of `main`; the embedding follows the bodies of the functions.
-/

namespace NoCurser

/-! ## Text and character classes -/

/-- The content of a `std::string`: one `Char` per `char`. -/
abbrev Text := List Char

/-- The class `\s` in the "C" locale: space, `\t`, `\n`, `\v`, `\f`, `\r`. -/
def isSpace (c : Char) : Bool :=
  c == ' ' || c == '\t' || c == '\n' || c == Char.ofNat 11 || c == Char.ofNat 12 || c == '\r'

/-- The class `\d`: the decimal digits. -/
def isDigit (c : Char) : Bool :=
  48 ≤ c.toNat && c.toNat ≤ 57

/-- The numeric value of a decimal digit. -/
def digitVal (c : Char) : Nat :=
  c.toNat - 48

/-- The two characters that `.` refuses: line feed and carriage return. -/
def isLineTerminator (c : Char) : Bool :=
  c == '\n' || c == '\r'

/-- The character sets that an atom of a pattern can stand for. -/
inductive CharSet where
  | any
  | space
  | digit
  deriving DecidableEq, Repr

/-- Membership of a character in a character set. -/
def CharSet.test : CharSet → Char → Bool
  | .any, c => !isLineTerminator c
  | .space, c => isSpace c
  | .digit, c => isDigit c

/-! ## Compiled patterns -/

/-- The abstract syntax of a compiled pattern: the value of a `std::regex`. -/
inductive Regex where
  | eps : Regex
  | chr (c : Char) : Regex
  | set (s : CharSet) : Regex
  | bol : Regex
  | seq (p q : Regex) : Regex
  | alt (p q : Regex) : Regex
  | star (p : Regex) : Regex
  | plus (p : Regex) : Regex
  | group (i : Nat) (p : Regex) : Regex
  deriving DecidableEq, Repr

/-- The numbers of the capture groups that occur in a pattern. -/
def Regex.groups : Regex → List Nat
  | .eps => []
  | .chr _ => []
  | .set _ => []
  | .bol => []
  | .seq p q => p.groups ++ q.groups
  | .alt p q => p.groups ++ q.groups
  | .star p => p.groups
  | .plus p => p.groups
  | .group i p => i :: p.groups

/-- The number of marked sub-expressions, `basic_regex::mark_count`. -/
def Regex.markCount (r : Regex) : Nat :=
  r.groups.length

/-! ## Constructing a pattern from its source text -/

/-- The outcome of the constructor `std::regex(pattern)`: a compiled pattern,
the exception `std::regex_error`, or a construct outside this model. -/
inductive Compiled where
  | ok (re : Regex) : Compiled
  | regex_error : Compiled
  | unsupported : Compiled
  deriving DecidableEq, Repr

/-- What the last term of an alternative is: an unquantified atom (a quantifier
may follow), a quantified atom, or an assertion. -/
inductive TermKind where
  | atom
  | quantified
  | assertion
  deriving DecidableEq, Repr

/-- The part of a group (or of the whole pattern) that has been read. -/
structure Frame where
  alts : Option Regex
  front : Option Regex
  last : Option (Regex × TermKind)
  idx : Nat
  deriving DecidableEq, Repr

/-- Sequence of an optional front and a term. -/
def joinSeq : Option Regex → Regex → Regex
  | none, r => r
  | some p, r => .seq p r

/-- The alternative read so far in a frame. -/
def Frame.current (f : Frame) : Regex :=
  match f.last with
  | none => (f.front.getD .eps)
  | some (r, _) => joinSeq f.front r

/-- The disjunction that a finished frame stands for. -/
def Frame.close (f : Frame) : Regex :=
  match f.alts with
  | none => f.current
  | some a => .alt a f.current

/-- Append a term to the current alternative. -/
def Frame.push (f : Frame) (r : Regex) (k : TermKind) : Frame :=
  { f with front := (match f.last with
                     | none => f.front
                     | some (l, _) => some (joinSeq f.front l)),
           last := some (r, k) }

/-- The letters and digits: after a backslash they form escapes with a meaning
of their own. -/
def isAlnum (c : Char) : Bool :=
  isDigit c || (65 ≤ c.toNat && c.toNat ≤ 90) || (97 ≤ c.toNat && c.toNat ≤ 122)

/-- The scanner and parser of the pattern grammar, left to right.  `esc` tells
that the previous character was a backslash, `stack` holds the open groups
(innermost first, the whole pattern last) and `ng` is the number of the next
capture group.  An opening brace that does not start a counted repetition is an
error, as are an unbalanced parenthesis, a quantifier with nothing to repeat and
a trailing backslash.  Constructs that the matcher below does not model (among
them a repeated capture group) give `unsupported`. -/
def compileLoop : Text → Bool → List Frame → Nat → Compiled
  | _, _, [], _ => .regex_error
  | [], true, _ :: _, _ => .regex_error
  | [], false, [f], _ => .ok f.close
  | [], false, _ :: _ :: _, _ => .regex_error
  | d :: t, true, f :: fs, ng =>
    if d = 's' then compileLoop t false (f.push (.set .space) .atom :: fs) ng
    else if d = 'd' then compileLoop t false (f.push (.set .digit) .atom :: fs) ng
    else if isAlnum d then .unsupported
    else compileLoop t false (f.push (.chr d) .atom :: fs) ng
  | c :: t, false, f :: fs, ng =>
    if c = '\\' then compileLoop t true (f :: fs) ng
    else if c = '(' then
      if t.head? = some '?' then .unsupported
      else compileLoop t false (⟨none, none, none, ng⟩ :: f :: fs) (ng + 1)
    else if c = ')' then
      match fs with
      | [] => .regex_error
      | g :: gs => compileLoop t false (g.push (.group f.idx f.close) .atom :: gs) ng
    else if c = '\x7b' then
      match t.head? with
      | some d => if isDigit d then .unsupported else .regex_error
      | none => .regex_error
    else if c = '*' || c = '+' then
      match f.last with
      | some (r, .atom) =>
        if r.groups = [] then
          compileLoop t false
            ({ f with last := some (if c = '*' then .star r else .plus r, .quantified) } :: fs) ng
        else .unsupported
      | some (_, .quantified) => .unsupported
      | _ => .regex_error
    else if c = '|' then
      compileLoop t false ({ f with alts := some f.close, front := none, last := none } :: fs) ng
    else if c = '^' then compileLoop t false (f.push .bol .assertion :: fs) ng
    else if c = '.' then compileLoop t false (f.push (.set .any) .atom :: fs) ng
    else if c = '$' || c = '?' || c = '[' || c = ']' || c = '\x7d' then .unsupported
    else compileLoop t false (f.push (.chr c) .atom :: fs) ng

/-- The constructor `std::regex(pattern)` with the default grammar. -/
def compile (pattern : String) : Compiled :=
  compileLoop pattern.toList false [⟨none, none, none, 0⟩] 1

/-! ## The backtracking matcher -/

/-- A matcher state: how many characters the current attempt has consumed, the
input that is left, and the captures recorded so far. -/
structure MState where
  consumed : Nat
  rest : Text
  caps : List (Nat × Text)
  deriving DecidableEq, Repr

/-- A continuation: what remains to be matched after the current sub-pattern. -/
abbrev Cont := MState → Option MState

/-- Record the text of capture group `i`, replacing an older record. -/
def setCap (i : Nat) (v : Text) (caps : List (Nat × Text)) : List (Nat × Text) :=
  (i, v) :: caps.filter (fun e => e.1 != i)

/-- Forget the captures of the listed groups (on entering a repetition). -/
def clearCaps (gs : List Nat) (x : MState) : MState :=
  { x with caps := x.caps.filter (fun e => !gs.contains e.1) }

/-- The greedy repetition of a matcher, zero or more times.  An iteration that
consumes nothing is rejected, as in the ECMAScript `RepeatMatcher`. -/
def starLoop (step : MState → Cont → Option MState) (gs : List Nat) :
    Nat → MState → Cont → Option MState
  | 0, x, c => c x
  | n + 1, x, c =>
    match step (clearCaps gs x)
        (fun y => if y.consumed = x.consumed then none else starLoop step gs n y c) with
    | some z => some z
    | none => c x

/-- The matcher of a pattern.  `bolOk` tells whether `^` may succeed where the
attempt starts; `^` never succeeds after a consumed character (no multiline). -/
def Regex.run : Regex → Bool → MState → Cont → Option MState
  | .eps, _, x, c => c x
  | .chr a, _, x, c =>
    match x.rest with
    | [] => none
    | b :: t => if a = b then c { x with consumed := x.consumed + 1, rest := t } else none
  | .set s, _, x, c =>
    match x.rest with
    | [] => none
    | b :: t => if s.test b then c { x with consumed := x.consumed + 1, rest := t } else none
  | .bol, bolOk, x, c => if bolOk && x.consumed == 0 then c x else none
  | .seq p q, bolOk, x, c => p.run bolOk x (fun y => q.run bolOk y c)
  | .alt p q, bolOk, x, c =>
    match p.run bolOk x c with
    | some z => some z
    | none => q.run bolOk x c
  | .star p, bolOk, x, c => starLoop (p.run bolOk) p.groups (x.rest.length + 1) x c
  | .plus p, bolOk, x, c =>
    p.run bolOk (clearCaps p.groups x)
      (fun y => starLoop (p.run bolOk) p.groups (y.rest.length + 1) y c)
  | .group i p, bolOk, x, c =>
    p.run bolOk x
      (fun y => c { y with caps := setCap i (x.rest.take (y.consumed - x.consumed)) y.caps })

/-- One match attempt at the head of `s`.  With `notNull` an empty match is
refused and the matcher backtracks. -/
def matchHere (re : Regex) (bolOk notNull : Bool) (s : Text) : Option MState :=
  re.run bolOk { consumed := 0, rest := s, caps := [] }
    (fun y => if notNull && y.consumed == 0 then none else some y)

/-- The leftmost match: attempts at successive start positions; only the first
position can be a beginning of input for `^`. -/
def searchFrom (re : Regex) (notNull : Bool) : Bool → Nat → Text → Option (Nat × MState)
  | bolOk, off, [] => (matchHere re bolOk notNull []).map (fun y => (off, y))
  | bolOk, off, a :: t =>
    match matchHere re bolOk notNull (a :: t) with
    | some y => some (off, y)
    | none => searchFrom re notNull false (off + 1) t

/-- The match flags that the iterator of `regex_replace` uses. -/
structure Flags where
  notNull : Bool
  continuous : Bool
  prevAvail : Bool
  deriving DecidableEq, Repr

/-- The function `std::regex_search` on the text `s`: the offset of the leftmost
match and the matcher state at its end. -/
def regex_search (re : Regex) (f : Flags) (s : Text) : Option (Nat × MState) :=
  if f.continuous then (matchHere re (!f.prevAvail) f.notNull s).map (fun y => (0, y))
  else searchFrom re f.notNull (!f.prevAvail) 0 s

/-! ## Formatting a match -/

/-- What `match_results` exposes to `format`. -/
structure MatchResults where
  pre : Text
  whole : Text
  suf : Text
  caps : List (Nat × Text)
  size : Nat
  deriving DecidableEq, Repr

/-- The text of sub-match `n`; empty when the group did not take part. -/
def MatchResults.sub (m : MatchResults) (n : Nat) : Text :=
  if n = 0 then m.whole else (m.caps.lookup n).getD []

/-- The function `match_results::format` with the default (ECMAScript) rules. -/
def format (m : MatchResults) : Text → Text
  | [] => []
  | [c] => [c]
  | [c, d] =>
    if c = '$' then
      if d = '$' then ['$']
      else if d = '&' then m.sub 0
      else if d = Char.ofNat 96 then m.pre
      else if d = Char.ofNat 39 then m.suf
      else if isDigit d then (if digitVal d < m.size then m.sub (digitVal d) else [])
      else '$' :: format m [d]
    else c :: format m [d]
  | c :: d :: d2 :: t3 =>
    if c = '$' then
      if d = '$' then '$' :: format m (d2 :: t3)
      else if d = '&' then m.sub 0 ++ format m (d2 :: t3)
      else if d = Char.ofNat 96 then m.pre ++ format m (d2 :: t3)
      else if d = Char.ofNat 39 then m.suf ++ format m (d2 :: t3)
      else if isDigit d then
        if isDigit d2 then
          (if 10 * digitVal d + digitVal d2 < m.size
            then m.sub (10 * digitVal d + digitVal d2) else []) ++ format m t3
        else
          (if digitVal d < m.size then m.sub (digitVal d) else []) ++ format m (d2 :: t3)
      else '$' :: format m (d :: d2 :: t3)
    else c :: format m (d :: d2 :: t3)

/-! ## Replacing every match -/

/-- The `match_results` of a match found at offset `off` of `from_`, with the
text `skipped` between the previous match and the search start. -/
def mkResults (re : Regex) (skipped from_ : Text) (off : Nat) (y : MState) : MatchResults :=
  { pre := skipped ++ from_.take off
    whole := (from_.drop off).take y.consumed
    suf := y.rest
    caps := y.caps
    size := re.markCount + 1 }

/-- The rest of `regex_replace` after a match: `rest` is the input after the
last match, `lastEmpty` tells whether that match was empty, `prevAvail` whether
the iterator has set `match_prev_avail`.  Follows `regex_iterator::operator++`. -/
def replaceLoop (re : Regex) (fmt : Text) : Nat → Bool → Bool → Text → Text
  | 0, _, _, rest => rest
  | n + 1, prevAvail, true, rest =>
    match rest with
    | [] => []
    | a :: t =>
      match regex_search re ⟨true, true, prevAvail⟩ (a :: t) with
      | some (off, y) =>
        format (mkResults re [] (a :: t) off y) fmt
          ++ replaceLoop re fmt n prevAvail (y.consumed == 0) y.rest
      | none =>
        match regex_search re ⟨false, false, true⟩ t with
        | some (off, y) =>
          (a :: t.take off) ++ format (mkResults re [a] t off y) fmt
            ++ replaceLoop re fmt n true (y.consumed == 0) y.rest
        | none => a :: t
  | n + 1, _, false, rest =>
    match regex_search re ⟨false, false, true⟩ rest with
    | some (off, y) =>
      rest.take off ++ format (mkResults re [] rest off y) fmt
        ++ replaceLoop re fmt n true (y.consumed == 0) y.rest
    | none => rest

/-- The function `std::regex_replace(s, re, fmt)` with default flags: every
match is replaced by the formatted template, the text between matches is
copied. -/
def regex_replace (s : Text) (re : Regex) (fmt : Text) : Text :=
  match regex_search re ⟨false, false, false⟩ s with
  | none => s
  | some (off, y) =>
    s.take off ++ format (mkResults re [] s off y) fmt
      ++ replaceLoop re fmt (2 * s.length + 2) false (y.consumed == 0) y.rest

/-! ## Files, console and events -/

/-- A file of the file system: its content and whether it can be opened for
reading and for writing. -/
structure File where
  content : Text
  readable : Bool
  writable : Bool
  deriving DecidableEq, Repr

/-- What the program does that can be observed besides the files: lines sent to
`std::cout` and `std::cerr`, and output streams opened on a file. -/
inductive Event where
  | cout (msg : String) : Event
  | cerr (msg : String) : Event
  | openedForWrite (path : String) (append : Bool) : Event
  deriving DecidableEq, Repr

/-- The world: the files by path, and the events so far, newest first. -/
structure World where
  files : List (String × File)
  log : List Event
  deriving DecidableEq, Repr

/-- Put a file under a path, replacing the file that is there. -/
def store (path : String) (f : File) : List (String × File) → List (String × File)
  | [] => [(path, f)]
  | (p, g) :: t => if p = path then (path, f) :: t else (p, g) :: store path f t

/-- Send a line to `std::cout`. -/
def World.cout (w : World) (msg : String) : World :=
  { w with log := .cout msg :: w.log }

/-- Send a line to `std::cerr`. -/
def World.cerr (w : World) (msg : String) : World :=
  { w with log := .cerr msg :: w.log }

/-- Open a `std::ifstream` on a path and read the whole file; `none` when the
stream cannot be opened (no such file, or no permission). -/
def World.read (w : World) (path : String) : Option Text :=
  match w.files.lookup path with
  | some f => if f.readable then some f.content else none
  | none => none

/-- Open a `std::ofstream` on a path: a missing file is created, an existing one
is truncated unless `append` is set; `none` when the stream cannot be opened. -/
def World.openWrite (w : World) (path : String) (append : Bool) : Option World :=
  match w.files.lookup path with
  | some f =>
    if f.writable then
      some { files := store path { f with content := if append then f.content else [] } w.files
             log := .openedForWrite path append :: w.log }
    else none
  | none =>
    some { files := store path ⟨[], true, true⟩ w.files
           log := .openedForWrite path append :: w.log }

/-- Write text through an open `std::ofstream`: it goes to the end of the file. -/
def World.put (w : World) (path : String) (data : Text) : World :=
  match w.files.lookup path with
  | some f => { w with files := store path { f with content := f.content ++ data } w.files }
  | none => w

/-- The function `std::string::find(snippet)`: the lowest position at which the
snippet occurs, `none` for `npos`. -/
def find : Text → Text → Option Nat
  | [], snippet => if snippet.isPrefixOf [] then some 0 else none
  | a :: t, snippet =>
    if snippet.isPrefixOf (a :: t) then some 0 else (find t snippet).map (· + 1)

/-! ## The two helpers of `setup.cpp` -/

/-- The function `replace_in_file` (lines 20-51). -/
def replace_in_file (filepath : String) (pattern : Regex) (replacement : Text) (w : World) :
    Bool × World :=
  match w.read filepath with
  | none => (false, w.cerr ("[ERROR] Unable to open file for reading: " ++ filepath ++ "\n"))
  | some content =>
    let modified_content := regex_replace content pattern replacement
    if modified_content = content then
      (true, w.cout ("[INFO] No changes needed in " ++ filepath ++ "\n"))
    else
      match w.openWrite filepath false with
      | none => (false, w.cerr ("[ERROR] Unable to open file for writing: " ++ filepath ++ "\n"))
      | some w1 =>
        (true, (w1.put filepath modified_content).cout
          ("[SUCCESS] Modified file: " ++ filepath ++ "\n"))

/-- The function `append_if_missing` (lines 61-88). -/
def append_if_missing (filepath : String) (snippet : Text) (w : World) : Bool × World :=
  match w.read filepath with
  | none => (false, w.cerr ("[ERROR] Unable to open file for reading: " ++ filepath ++ "\n"))
  | some content =>
    if (find content snippet).isSome then
      (true, w.cout ("[INFO] Snippet already present in " ++ filepath ++ "\n"))
    else
      match w.openWrite filepath true with
      | none => (false, w.cerr ("[ERROR] Unable to open file for appending: " ++ filepath ++ "\n"))
      | some w1 =>
        (true, (w1.put filepath ('\n' :: snippet ++ ['\n'])).cout
          ("[SUCCESS] Appended snippet to " ++ filepath ++ "\n"))

/-! ## The steps of `main` -/

/-- How a step of `main` ends: the run goes on, `main` returns 1, the
construction of a pattern throws `std::regex_error` (nothing catches it), or the
pattern lies outside the model. -/
inductive StepResult where
  | ok (w : World) : StepResult
  | failed (w : World) : StepResult
  | threw (w : World) : StepResult
  | unmodelled (w : World) : StepResult
  deriving DecidableEq, Repr

/-- Evaluate `std::regex(pattern)` and go on with the compiled pattern. -/
def withRegex (pattern : String) (w : World) (k : Regex → StepResult) : StepResult :=
  match compile pattern with
  | .ok re => k re
  | .regex_error => .threw w
  | .unsupported => .unmodelled w

/-- A step `if (!replace_in_file(path, std::regex(pattern), replacement)) return 1;`. -/
def substitute (filepath pattern replacement : String) (w : World) : StepResult :=
  withRegex pattern w fun re =>
    match replace_in_file filepath re replacement.toList w with
    | (true, w1) => .ok w1
    | (false, w1) => .failed w1

/-- The step `if (!append_if_missing(path, snippet)) return 1;`. -/
def appendStep (filepath snippet : String) (w : World) : StepResult :=
  match append_if_missing filepath snippet.toList w with
  | (true, w1) => .ok w1
  | (false, w1) => .failed w1

/-- The text `splash_function` of step 3 (lines 123-127). -/
def splash_function : String :=
  "void do_intro() \x7b\n" ++
  "    msg_puts(\"\\nVim-NoCursor v0.1 Minimal\\n\");\n" ++
  "    msg_puts(\"https://github.com/braga-waysward/Vim-NoCurser\\n\\n\");\n" ++
  "\x7d"

/-- The text `hide_cursor_code` of step 4 (lines 137-141). -/
def hide_cursor_code : String :=
  "// Hide terminal cursor\n" ++
  "void hide_cursor() \x7b\n" ++
  "    out_str(\"\\033[?25l\");\n" ++
  "\x7d"

/-- Step 5, written inline in `main` (lines 147-171): insert a call of
`hide_cursor()` after `mch_exitsetup();` in `src/main.c`. -/
def main_step5 (w : World) : StepResult :=
  match w.read "src/main.c" with
  | none => .failed (w.cerr "[ERROR] Unable to open 'src/main.c' for reading.\n")
  | some main_content =>
    if (find main_content "hide_cursor();".toList).isNone then
      withRegex "mch_exitsetup\\s*\\(\\s*\\)\\s*;" w fun mch_exitsetup_regex =>
        let modified_main :=
          regex_replace main_content mch_exitsetup_regex
            "mch_exitsetup();\n    hide_cursor();".toList
        match w.openWrite "src/main.c" false with
        | none => .failed (w.cerr "[ERROR] Unable to open 'src/main.c' for writing.\n")
        | some w1 =>
          .ok ((w1.put "src/main.c" modified_main).cout
            "[SUCCESS] Inserted 'hide_cursor()' call into 'src/main.c'.\n")
    else
      .ok (w.cout "[INFO] 'hide_cursor()' call already present in 'src/main.c'.\n")

/-- Step 7, written inline in `main` (lines 190-214): comment out the calls of
`showmode()` in `src/normal.c`. -/
def main_step7 (w : World) : StepResult :=
  match w.read "src/normal.c" with
  | none => .failed (w.cerr "[ERROR] Unable to open 'src/normal.c' for reading.\n")
  | some normal_content =>
    if (find normal_content "//showmode();".toList).isNone then
      withRegex "^(\\s*)showmode\\s*\\(\\s*\\)\\s*;" w fun showmode_regex =>
        let modified_normal :=
          regex_replace normal_content showmode_regex "$1//showmode();".toList
        match w.openWrite "src/normal.c" false with
        | none => .failed (w.cerr "[ERROR] Unable to open 'src/normal.c' for writing.\n")
        | some w1 =>
          .ok ((w1.put "src/normal.c" modified_normal).cout
            "[SUCCESS] Commented out 'showmode()' calls in 'src/normal.c'.\n")
    else
      .ok (w.cout "[INFO] 'showmode()' calls already commented in 'src/normal.c'.\n")

/-- A step of the plan of `main`: the file it works on and what it does. -/
structure Step where
  target : String
  exec : World → StepResult

/-- The table `options_modifications` of step 6 (lines 174-182): the patterns
and their replacements, in order. -/
def options_modifications : List (String × String) :=
  [ ("p_number\\s*=\\s*\\d+;", "p_number = 0;"),
    ("p_ruler\\s*=\\s*\\d+;", "p_ruler = 0;"),
    ("p_showcmd\\s*=\\s*\\d+;", "p_showcmd = 0;"),
    ("p_ls\\s*=\\s*\\d+;", "p_ls = 0;"),
    ("p_laststatus\\s*=\\s*\\d+;", "p_laststatus = 0;"),
    ("p_showmode\\s*=\\s*\\d+;", "p_showmode = 0;"),
    ("p_cmdheight\\s*=\\s*\\d+;", "p_cmdheight = 1;") ]

/-- The steps of `main` in the order of the source: step 1 (Makefile), the three
substitutions of steps 2 and 3 (version.c), step 4 (term.c), step 5 (main.c),
the loop of step 6 over `options_modifications` (option.c) and step 7
(normal.c).  The source constructs the seven patterns of step 6 together before
the loop; all seven can be constructed (`compile_options`), so constructing each
where it is used makes no difference. -/
def mainPlan : List Step :=
  [ ⟨"src/Makefile", substitute "src/Makefile" "^(TARGET\\s*=\\s*).*" "$1nocursor"⟩,
    ⟨"src/version.c", substitute "src/version.c" "#define\\s+VIM_VERSION_MEDIUM\\s+\\\".*\\\""
      "#define VIM_VERSION_MEDIUM  \"NoCursor\""⟩,
    ⟨"src/version.c", substitute "src/version.c" "#define\\s+VIM_VERSION_LONG\\s+\\\".*\\\""
      "#define VIM_VERSION_LONG    \"Vim-NoCursor v0.1 Minimal\""⟩,
    ⟨"src/version.c", substitute "src/version.c" "void\\s+do_intro\\s*\\(\\)\\s*\x7b[^\x7d]*\x7d"
      splash_function⟩,
    ⟨"src/term.c", appendStep "src/term.c" hide_cursor_code⟩,
    ⟨"src/main.c", main_step5⟩ ]
  ++ options_modifications.map
      (fun m => ⟨"src/option.c", substitute "src/option.c" m.1 m.2⟩)
  ++ [ ⟨"src/normal.c", main_step7⟩ ]

/-- Run steps in order; the first step that does not end with `ok` ends the run. -/
def runSteps : List Step → World → StepResult
  | [], w => .ok w
  | s :: rest, w =>
    match s.exec w with
    | .ok w1 => runSteps rest w1
    | r => r

/-- How the process ends: `main` returns a code, or the C++ runtime terminates
it for an exception that nothing catches; `unmodelled` marks a run that leaves
the model. -/
inductive Exit where
  | returned (code : Int) : Exit
  | terminated : Exit
  | unmodelled : Exit
  deriving DecidableEq, Repr

/-- The world after the first line that `main` prints (line 97). -/
def started (w : World) : World :=
  w.cout "[START] Initiating Vim-NoCursor source code adjustments...\n"

/-- The function `main` (lines 96-220). -/
def main (w : World) : Exit × World :=
  match runSteps mainPlan (started w) with
  | .ok w1 =>
    (.returned 0,
      (w1.cout "\n[COMPLETE] Vim-NoCursor adjustments finished successfully.\n").cout
        "Please run 'make' inside the repository root to build your minimal, cursorless Vim.\n")
  | .failed w1 => (.returned 1, w1)
  | .threw w1 => (.terminated, w1)
  | .unmodelled w1 => (.unmodelled, w1)

/-! ## The transforms of the specification -/

/-- A transform of the specification: a pattern substitution or a conditional
append. -/
inductive Transform where
  | substitute (pattern : Regex) (template : Text) : Transform
  | appendIfMissing (snippet : Text) : Transform
  deriving DecidableEq, Repr

/-- The pure content-to-content function of a transform, in the words of the
specification: a substitution replaces the matches of the pattern by the
template; an append returns the content unchanged when it contains the snippet
and otherwise the content, a newline, the snippet and a newline. -/
def Transform.apply : Transform → Text → Text
  | .substitute re fmt, c => regex_replace c re fmt
  | .appendIfMissing s, c => if (find c s).isSome then c else c ++ ('\n' :: s ++ ['\n'])

/-- The content function of the inline steps 5 and 7 of `main`: substitute only
when the marker text does not occur in the content. -/
def guardedSubstitute (marker : Text) (re : Regex) (fmt : Text) (c : Text) : Text :=
  if (find c marker).isNone then regex_replace c re fmt else c

/-- The pattern matches the text `c` at position `i`: an attempt that starts
there succeeds (only position 0 is a beginning of input). -/
def matchesAt (re : Regex) (c : Text) (i : Nat) : Bool :=
  (matchHere re (i == 0) false (c.drop i)).isSome

/-- The pattern has no match in the text: it matches at no position, the end of
the text included. -/
def NoMatch (re : Regex) (c : Text) : Prop :=
  ∀ i, i ≤ c.length → matchesAt re c i = false

/-! ## The compiled patterns of `main` in closed form -/

/-- The left-nested sequence of a list of patterns, as the parser builds it. -/
def seqs : List Regex → Regex
  | [] => .eps
  | r :: rs => rs.foldl .seq r

/-- The patterns of the characters of a literal text. -/
def lits (s : String) : List Regex :=
  s.toList.map .chr

/-- Zero or more characters of the class `\s`. -/
def spaces : Regex :=
  .star (.set .space)

/-- The compiled pattern of step 1, `^(TARGET\s*=\s*).*`. -/
def targetRegex : Regex :=
  seqs [.bol, .group 1 (seqs (lits "TARGET" ++ [spaces, .chr '=', spaces])), .star (.set .any)]

/-- The compiled pattern of step 5, `mch_exitsetup\s*\(\s*\)\s*;`. -/
def exitsetupRegex : Regex :=
  seqs (lits "mch_exitsetup" ++ [spaces, .chr '(', spaces, .chr ')', spaces, .chr ';'])

/-- The compiled pattern of step 7, `^(\s*)showmode\s*\(\s*\)\s*;`. -/
def showmodeRegex : Regex :=
  seqs ([.bol, .group 1 spaces] ++ lits "showmode"
    ++ [spaces, .chr '(', spaces, .chr ')', spaces, .chr ';'])

/-- The matcher of a list of patterns in sequence. -/
def runList : List Regex → Bool → MState → Cont → Option MState
  | [], _, x, c => c x
  | r :: rs, bolOk, x, c => r.run bolOk x (fun y => runList rs bolOk y c)

/-- The compiled pattern of the two substitutions of step 2,
`#define\s+NAME\s+\".*\"`. -/
def versionRegex (name : String) : Regex :=
  seqs (lits "#define" ++ [.plus (.set .space)] ++ lits name
    ++ [.plus (.set .space), .chr '"', .star (.set .any), .chr '"'])

/-! ## Closed forms used in the proofs about the matcher -/

/-- The greedy repetition of a character class in closed form: take the longest
run of characters of the class, and give back characters one at a time while the
continuation refuses. -/
def greedyRun (p : Char → Bool) (c : Cont) (caps : List (Nat × Text)) : Nat → Text → Option MState
  | n, [] => c ⟨n, [], caps⟩
  | n, a :: t =>
    if p a then
      match greedyRun p c caps (n + 1) t with
      | some z => some z
      | none => c ⟨n, a :: t, caps⟩
    else c ⟨n, a :: t, caps⟩

/-- The characters that `.` accepts. -/
def notLineTerminator (c : Char) : Bool :=
  !isLineTerminator c

/-- The match of `^(TARGET\s*=\s*).*` at the beginning of a text, in closed form:
the text of group 1, the text that `.*` takes and the text after the match. -/
def targetSplit (c : Text) : Option (Text × Text × Text) :=
  if "TARGET".toList.isPrefixOf c then
    match (c.drop 6).dropWhile isSpace with
    | [] => none
    | a :: c3 =>
      if a = '=' then
        some ("TARGET".toList ++ (c.drop 6).takeWhile isSpace ++ '=' :: c3.takeWhile isSpace,
          (c3.dropWhile isSpace).takeWhile notLineTerminator,
          (c3.dropWhile isSpace).dropWhile notLineTerminator)
      else none
  else none

/-! ## The effect of a run on single files -/

/-- The template of step 1. -/
def targetTemplate : Text :=
  "$1nocursor".toList

/-- The template of the first substitution of step 2. -/
def mediumTemplate : Text :=
  "#define VIM_VERSION_MEDIUM  \"NoCursor\"".toList

/-- The template of the second substitution of step 2. -/
def longTemplate : Text :=
  "#define VIM_VERSION_LONG    \"Vim-NoCursor v0.1 Minimal\"".toList

/-- What `replace_in_file` does to its target file, and whether it returns true:
`none` stands for a path without a file. -/
def replaceFile (re : Regex) (fmt : Text) : Option File → Bool × Option File
  | none => (false, none)
  | some f =>
    if f.readable then
      if regex_replace f.content re fmt = f.content then (true, some f)
      else if f.writable then (true, some { f with content := regex_replace f.content re fmt })
      else (false, some f)
    else (false, some f)

/-- What a run of `main` does to `src/Makefile` (first argument) and to
`src/version.c` (second argument), and how the run ends: steps 1 and 2, then the
pattern of step 3 throws. -/
def mainEffect (m v : Option File) : Exit × Option File × Option File :=
  match replaceFile targetRegex targetTemplate m with
  | (false, m1) => (.returned 1, m1, v)
  | (true, m1) =>
    match replaceFile (versionRegex "VIM_VERSION_MEDIUM") mediumTemplate v with
    | (false, v1) => (.returned 1, m1, v1)
    | (true, v1) =>
      match replaceFile (versionRegex "VIM_VERSION_LONG") longTemplate v1 with
      | (false, v2) => (.returned 1, m1, v2)
      | (true, v2) => (.terminated, m1, v2)

/-- The part of `mainEffect` that concerns `src/version.c`: the two
substitutions of step 2, then the pattern of step 3 throws. -/
def versionEffect (v : Option File) : Exit × Option File :=
  match replaceFile (versionRegex "VIM_VERSION_MEDIUM") mediumTemplate v with
  | (false, v1) => (.returned 1, v1)
  | (true, v1) =>
    match replaceFile (versionRegex "VIM_VERSION_LONG") longTemplate v1 with
    | (false, v2) => (.returned 1, v2)
    | (true, v2) => (.terminated, v2)

/-! ## Progress of the matcher -/

/-- The state `y` lies ahead of the state `x` in the same input: it is `x` after
some more characters have been consumed. -/
def Reach (x y : MState) : Prop :=
  ∃ l : Text, x.rest = l ++ y.rest ∧ y.consumed = x.consumed + l.length

/-- The fuel that `replaceLoop` needs for the input that is left. -/
def loopFuel (lastEmpty : Bool) (rest : Text) : Nat :=
  2 * rest.length + (if lastEmpty then 1 else 2)

/-- Whether the construction of a pattern succeeds. -/
def Compiled.isOk : Compiled → Bool
  | .ok _ => true
  | _ => false

/-! ## Facts about the file system -/

theorem lookup_store_self (path : String) (f : File) (files : List (String × File)) :
    (store path f files).lookup path = some f := by
  induction files with
  | nil => simp [store, List.lookup]
  | cons e t ih =>
    obtain ⟨p, g⟩ := e
    by_cases hp : p = path
    · simp [store, hp, List.lookup]
    · have hne : (path == p) = false := by
        simpa using fun h : path = p => hp h.symm
      simp [store, hp, List.lookup, hne, ih]

theorem lookup_store_ne (path q : String) (f : File) (files : List (String × File))
    (hq : q ≠ path) : (store path f files).lookup q = files.lookup q := by
  induction files with
  | nil =>
    have hne : (q == path) = false := by simpa using hq
    simp [store, List.lookup, hne]
  | cons e t ih =>
    obtain ⟨p, g⟩ := e
    by_cases hp : p = path
    · subst hp
      have hne : (q == p) = false := by simpa using hq
      simp [store, List.lookup, hne]
    · by_cases hqp : q = p
      · subst hqp
        simp [store, hp, List.lookup]
      · have hne : (q == p) = false := by simpa using hqp
        simp [store, hp, List.lookup, hne, ih]

theorem store_of_lookup (path : String) (f : File) (files : List (String × File))
    (h : files.lookup path = some f) : store path f files = files := by
  induction files with
  | nil => simp [List.lookup] at h
  | cons e t ih =>
    obtain ⟨p, g⟩ := e
    by_cases hp : p = path
    · subst hp
      simp [List.lookup] at h
      simp [store, h]
    · have hne : (path == p) = false := by
        simpa using fun h : path = p => hp h.symm
      simp [List.lookup, hne] at h
      simp [store, hp, ih h]

theorem store_store (path : String) (f g : File) (files : List (String × File)) :
    store path g (store path f files) = store path g files := by
  induction files with
  | nil => simp [store]
  | cons e t ih =>
    obtain ⟨p, h⟩ := e
    by_cases hp : p = path
    · simp [store, hp]
    · simp [store, hp, ih]

/-- The function `find` succeeds exactly when the snippet is a contiguous part of
the content. -/
theorem find_isSome_iff (c s : Text) : (find c s).isSome ↔ s <:+: c := by
  induction c with
  | nil =>
    cases s with
    | nil => simp [find]
    | cons a t => simp [find, List.isPrefixOf]
  | cons a t ih =>
    rw [find, List.infix_cons_iff]
    by_cases hp : s.isPrefixOf (a :: t) = true
    · simp [hp, List.isPrefixOf_iff_prefix.mp hp]
    · have hnp : ¬ s <+: a :: t := fun h => hp (List.isPrefixOf_iff_prefix.mpr h)
      simp [hp, hnp, ih]

theorem find_isNone_iff (c s : Text) : (find c s).isNone ↔ ¬ s <:+: c := by
  rw [← find_isSome_iff]
  cases find c s <;> simp

/-! ## `append_if_missing` -/

theorem read_of_lookup (w : World) (path : String) (f : File)
    (hf : w.files.lookup path = some f) (hr : f.readable = true) :
    w.read path = some f.content := by
  simp [World.read, hf, hr]

theorem read_none_of_lookup_none (w : World) (path : String)
    (hf : w.files.lookup path = none) : w.read path = none := by
  simp [World.read, hf]

/-- Opening for writing and then writing `data`: the file holds the kept content
followed by `data`. -/
theorem openWrite_put (w : World) (path : String) (f : File) (append : Bool) (data : Text)
    (hf : w.files.lookup path = some f) (hw : f.writable = true) :
    ∃ w1, w.openWrite path append = some w1 ∧
      (w1.put path data).files =
        store path { f with content := (if append then f.content else []) ++ data } w.files ∧
      (w1.put path data).log = .openedForWrite path append :: w.log := by
  refine ⟨{ files := store path { f with content := if append then f.content else [] } w.files
            log := .openedForWrite path append :: w.log }, ?_, ?_, ?_⟩
  · simp [World.openWrite, hf, hw]
  · simp [World.put, lookup_store_self, store_store]
  · simp [World.put, lookup_store_self]

theorem append_if_missing_present (w : World) (path : String) (f : File) (s : Text)
    (hf : w.files.lookup path = some f) (hr : f.readable = true) (hs : s <:+: f.content) :
    append_if_missing path s w =
      (true, w.cout ("[INFO] Snippet already present in " ++ path ++ "\n")) := by
  have hfind : (find f.content s).isSome = true := (find_isSome_iff _ _).mpr hs
  simp [append_if_missing, read_of_lookup w path f hf hr, hfind]

theorem append_if_missing_absent (w : World) (path : String) (f : File) (s : Text)
    (hf : w.files.lookup path = some f) (hr : f.readable = true) (hw : f.writable = true)
    (hs : ¬ s <:+: f.content) :
    ∃ w', append_if_missing path s w = (true, w') ∧
      w'.files = store path { f with content := f.content ++ ('\n' :: s ++ ['\n']) } w.files ∧
      w'.log = .cout ("[SUCCESS] Appended snippet to " ++ path ++ "\n")
        :: .openedForWrite path true :: w.log := by
  have hfind : (find f.content s).isSome = false := by
    cases h : (find f.content s).isSome
    · rfl
    · exact absurd ((find_isSome_iff _ _).mp h) hs
  obtain ⟨w1, h1, h2, h3⟩ := openWrite_put w path f true ('\n' :: s ++ ['\n']) hf hw
  refine ⟨(w1.put path ('\n' :: s ++ ['\n'])).cout
      ("[SUCCESS] Appended snippet to " ++ path ++ "\n"), ?_, ?_, ?_⟩
  · simp [append_if_missing, read_of_lookup w path f hf hr, hfind, h1]
  · simpa [World.cout] using h2
  · show _ :: (w1.put path ('\n' :: s ++ ['\n'])).log = _
    rw [h3]

/-- C1: on a file that can be opened (for reading and for appending) and holds
`c`, `append_if_missing` returns true; the files are left exactly as they were
when the snippet occurs in `c`, and otherwise the file holds `c`, a newline, the
snippet and a newline, every other file being untouched. -/
theorem append_if_missing_spec (w : World) (path : String) (f : File) (s : Text)
    (hf : w.files.lookup path = some f) (hr : f.readable = true) (hw : f.writable = true) :
    (append_if_missing path s w).1 = true ∧
    (s <:+: f.content → (append_if_missing path s w).2.files = w.files) ∧
    (¬ s <:+: f.content →
      (append_if_missing path s w).2.files.lookup path
          = some { f with content := f.content ++ ['\n'] ++ s ++ ['\n'] } ∧
      ∀ q, q ≠ path → (append_if_missing path s w).2.files.lookup q = w.files.lookup q) := by
  by_cases hs : s <:+: f.content
  · rw [append_if_missing_present w path f s hf hr hs]
    exact ⟨rfl, fun _ => rfl, fun h => absurd hs h⟩
  · obtain ⟨w', h1, h2, _⟩ := append_if_missing_absent w path f s hf hr hw hs
    rw [h1]
    refine ⟨rfl, fun h => absurd h hs, fun _ => ⟨?_, fun q hq => ?_⟩⟩
    · simp [h2, lookup_store_self]
    · simp [h2, lookup_store_ne path q _ _ hq]

/-- C1, the scenario of the specification: `"A\nB\n"` with snippet `"C"` becomes
`"A\nB\n\nC\n"`. -/
theorem append_if_missing_spec_witness :
    (append_if_missing "f.c" "C".toList ⟨[("f.c", ⟨"A\nB\n".toList, true, true⟩)], []⟩).1 = true ∧
    (append_if_missing "f.c" "C".toList
        ⟨[("f.c", ⟨"A\nB\n".toList, true, true⟩)], []⟩).2.files.lookup "f.c"
      = some ⟨"A\nB\n\nC\n".toList, true, true⟩ :=
  have h := append_if_missing_spec ⟨[("f.c", ⟨"A\nB\n".toList, true, true⟩)], []⟩
    "f.c" ⟨"A\nB\n".toList, true, true⟩ "C".toList (by decide) rfl rfl
  ⟨h.1, (h.2.2 (by decide)).1⟩

/-! ## A missing file -/

/-- C7: when the target path does not exist, `replace_in_file` and
`append_if_missing` return false and leave the files exactly as they were; in
particular the missing file is not created. -/
theorem missing_file_fails (w : World) (path : String) (re : Regex) (fmt s : Text)
    (hf : w.files.lookup path = none) :
    (replace_in_file path re fmt w).1 = false ∧
    (replace_in_file path re fmt w).2.files = w.files ∧
    (append_if_missing path s w).1 = false ∧
    (append_if_missing path s w).2.files = w.files := by
  simp [replace_in_file, append_if_missing, read_none_of_lookup_none w path hf, World.cerr]

/-- C7 on an empty file system. -/
theorem missing_file_fails_witness :
    (replace_in_file "src/Makefile" (.chr 'a') "b".toList ⟨[], []⟩).1 = false ∧
    (replace_in_file "src/Makefile" (.chr 'a') "b".toList ⟨[], []⟩).2.files = [] ∧
    (append_if_missing "src/Makefile" "x".toList ⟨[], []⟩).1 = false ∧
    (append_if_missing "src/Makefile" "x".toList ⟨[], []⟩).2.files = [] :=
  missing_file_fails ⟨[], []⟩ "src/Makefile" (.chr 'a') "b".toList "x".toList rfl

/-! ## Running `append_if_missing` twice -/

theorem append_if_missing_true_cases (w w1 : World) (path : String) (s : Text)
    (h : append_if_missing path s w = (true, w1)) :
    ∃ f, w1.files.lookup path = some f ∧ f.readable = true ∧ s <:+: f.content := by
  unfold append_if_missing at h
  cases hl : w.files.lookup path with
  | none => simp [World.read, hl] at h
  | some f =>
    cases hr : f.readable with
    | false => simp [World.read, hl, hr] at h
    | true =>
      simp only [World.read, hl, hr, if_true] at h
      cases hfind : (find f.content s).isSome with
      | true =>
        simp only [hfind, if_true, Prod.mk.injEq, true_and] at h
        subst h
        exact ⟨f, hl, hr, (find_isSome_iff _ _).mp hfind⟩
      | false =>
        cases hwr : f.writable with
        | false => simp [hfind, World.openWrite, hl, hwr] at h
        | true =>
          obtain ⟨w2, h1, h2, _⟩ := openWrite_put w path f true ('\n' :: s ++ ['\n']) hl hwr
          simp only [hfind, h1, Prod.mk.injEq, true_and, Bool.false_eq_true, if_false] at h
          subst h
          refine ⟨{ f with content := f.content ++ ('\n' :: s ++ ['\n']) }, ?_, hr, ?_⟩
          · show List.lookup path (w2.put path ('\n' :: s ++ ['\n'])).files = _
            rw [h2, lookup_store_self]
            simp
          · exact ⟨f.content ++ ['\n'], ['\n'], by simp⟩

/-- C8: after a first successful run of `append_if_missing`, a second run with
the same snippet returns true through the already-present branch: it opens no
output stream, reports `[INFO] Snippet already present` and leaves every file as
the first run left it, whether or not the first run appended. -/
theorem append_if_missing_twice (w w1 : World) (path : String) (s : Text)
    (h : append_if_missing path s w = (true, w1)) :
    append_if_missing path s w1 =
      (true, w1.cout ("[INFO] Snippet already present in " ++ path ++ "\n")) ∧
    (append_if_missing path s w1).2.files = w1.files := by
  obtain ⟨f, hf, hr, hs⟩ := append_if_missing_true_cases w w1 path s h
  rw [append_if_missing_present w1 path f s hf hr hs]
  exact ⟨rfl, rfl⟩

/-- C8 on the scenario of the specification: the second run on `"A\nB\n\nC\n"`. -/
theorem append_if_missing_twice_witness :
    append_if_missing "f.c" "C".toList
        ⟨[("f.c", ⟨"A\nB\n\nC\n".toList, true, true⟩)],
          [.cout "[SUCCESS] Appended snippet to f.c\n", .openedForWrite "f.c" true]⟩ =
      (true, (World.mk [("f.c", ⟨"A\nB\n\nC\n".toList, true, true⟩)]
          [.cout "[SUCCESS] Appended snippet to f.c\n", .openedForWrite "f.c" true]).cout
        ("[INFO] Snippet already present in " ++ "f.c" ++ "\n")) ∧
    (append_if_missing "f.c" "C".toList
        ⟨[("f.c", ⟨"A\nB\n\nC\n".toList, true, true⟩)],
          [.cout "[SUCCESS] Appended snippet to f.c\n", .openedForWrite "f.c" true]⟩).2.files =
      [("f.c", ⟨"A\nB\n\nC\n".toList, true, true⟩)] :=
  append_if_missing_twice ⟨[("f.c", ⟨"A\nB\n".toList, true, true⟩)], []⟩ _ "f.c" "C".toList
    (by decide)

/-! ## A pattern without a match -/

theorem searchFrom_eq_none (re : Regex) (nn : Bool) (t : Text) :
    ∀ (b : Bool) (off : Nat),
      matchHere re b nn t = none →
      (∀ i, i < t.length → matchHere re false nn (t.drop (i + 1)) = none) →
      searchFrom re nn b off t = none := by
  induction t with
  | nil => intro b off h0 _; simp [searchFrom, h0]
  | cons a t ih =>
    intro b off h0 hrest
    rw [searchFrom, h0]
    refine ih false (off + 1) ?_ ?_
    · simpa using hrest 0 (by simp)
    · intro i hi
      simpa using hrest (i + 1) (by simpa using hi)

theorem regex_search_none_of_noMatch (re : Regex) (c : Text) (h : NoMatch re c) :
    regex_search re ⟨false, false, false⟩ c = none := by
  have h0 : matchHere re true false c = none := by
    have := h 0 (Nat.zero_le _)
    simpa [matchesAt] using this
  have hrest : ∀ i, i < c.length → matchHere re false false (c.drop (i + 1)) = none := by
    intro i hi
    have := h (i + 1) hi
    simpa [matchesAt] using this
  simpa [regex_search] using searchFrom_eq_none re false c true 0 h0 hrest

/-- C6: when the pattern has no match in the content `c`, the substitution
returns `c` unchanged, and `replace_in_file` on a readable file holding `c`
returns true, reports `[INFO] No changes needed`, opens no output stream and
leaves every file as it was. -/
theorem no_match_is_success (re : Regex) (fmt c : Text) (h : NoMatch re c) :
    regex_replace c re fmt = c ∧
    ∀ (w : World) (path : String) (f : File),
      w.files.lookup path = some f → f.readable = true → f.content = c →
      replace_in_file path re fmt w =
        (true, w.cout ("[INFO] No changes needed in " ++ path ++ "\n")) ∧
      (replace_in_file path re fmt w).2.files = w.files := by
  have hr : regex_replace c re fmt = c := by
    simp [regex_replace, regex_search_none_of_noMatch re c h]
  refine ⟨hr, fun w path f hf hread hc => ?_⟩
  have h1 : replace_in_file path re fmt w =
      (true, w.cout ("[INFO] No changes needed in " ++ path ++ "\n")) := by
    simp [replace_in_file, read_of_lookup w path f hf hread, hc, hr]
  rw [h1]
  exact ⟨rfl, rfl⟩

/-- C6 for the pattern `a` and the content `xyz`. -/
theorem no_match_is_success_witness :
    regex_replace "xyz".toList (.chr 'a') "b".toList = "xyz".toList ∧
    ∀ (w : World) (path : String) (f : File),
      w.files.lookup path = some f → f.readable = true → f.content = "xyz".toList →
      replace_in_file path (.chr 'a') "b".toList w =
        (true, w.cout ("[INFO] No changes needed in " ++ path ++ "\n")) ∧
      (replace_in_file path (.chr 'a') "b".toList w).2.files = w.files :=
  no_match_is_success (.chr 'a') "b".toList "xyz".toList (by unfold NoMatch; decide)

/-! ## The outcomes of `replace_in_file` -/

/-- The four ways in which `replace_in_file` ends. -/
theorem replace_in_file_cases (path : String) (re : Regex) (fmt : Text) (w : World) :
    (w.read path = none ∧
      replace_in_file path re fmt w =
        (false, w.cerr ("[ERROR] Unable to open file for reading: " ++ path ++ "\n"))) ∨
    (∃ c, w.read path = some c ∧ regex_replace c re fmt = c ∧
      replace_in_file path re fmt w =
        (true, w.cout ("[INFO] No changes needed in " ++ path ++ "\n"))) ∨
    (∃ f, w.files.lookup path = some f ∧ f.readable = true ∧ f.writable = false ∧
      regex_replace f.content re fmt ≠ f.content ∧
      replace_in_file path re fmt w =
        (false, w.cerr ("[ERROR] Unable to open file for writing: " ++ path ++ "\n"))) ∨
    (∃ f, w.files.lookup path = some f ∧ f.readable = true ∧ f.writable = true ∧
      regex_replace f.content re fmt ≠ f.content ∧
      replace_in_file path re fmt w =
        (true, ⟨store path { f with content := regex_replace f.content re fmt } w.files,
          .cout ("[SUCCESS] Modified file: " ++ path ++ "\n")
            :: .openedForWrite path false :: w.log⟩)) := by
  cases hl : w.files.lookup path with
  | none =>
    left
    simp [replace_in_file, read_none_of_lookup_none w path hl]
  | some f =>
    cases hr : f.readable with
    | false =>
      left
      simp [replace_in_file, World.read, hl, hr]
    | true =>
      right
      have hread := read_of_lookup w path f hl hr
      by_cases hc : regex_replace f.content re fmt = f.content
      · left
        exact ⟨f.content, hread, hc, by simp [replace_in_file, hread, hc]⟩
      · right
        cases hw : f.writable with
        | false =>
          left
          exact ⟨f, rfl, hr, hw, hc, by simp [replace_in_file, hread, hc, World.openWrite, hl, hw]⟩
        | true =>
          right
          obtain ⟨w1, h1, h2, h3⟩ :=
            openWrite_put w path f false (regex_replace f.content re fmt) hl hw
          refine ⟨f, rfl, hr, hw, hc, ?_⟩
          simp only [replace_in_file, hread, hc, h1, if_false]
          have e : (w1.put path (regex_replace f.content re fmt)) =
              ⟨store path { f with content := regex_replace f.content re fmt } w.files,
                .openedForWrite path false :: w.log⟩ := by
            cases hput : w1.put path (regex_replace f.content re fmt) with
            | mk fs lg =>
              rw [hput] at h2 h3
              simp at h2 h3
              simp [h2, h3]
          rw [e]
          rfl

/-! ## The patterns of `main` -/

theorem compile_target : compile "^(TARGET\\s*=\\s*).*" = .ok targetRegex := by decide

theorem compile_exitsetup : compile "mch_exitsetup\\s*\\(\\s*\\)\\s*;" = .ok exitsetupRegex := by
  decide

theorem compile_showmode : compile "^(\\s*)showmode\\s*\\(\\s*\\)\\s*;" = .ok showmodeRegex := by
  decide

/-- The pattern of step 3 has an opening brace that starts no counted repetition:
constructing it throws `std::regex_error`. -/
theorem compile_do_intro :
    compile "void\\s+do_intro\\s*\\(\\)\\s*\x7b[^\x7d]*\x7d" = .regex_error := by decide

/-! ## The steps of `main`, one at a time -/

theorem substitute_of_compile (path pat fmt : String) (re : Regex) (w : World)
    (h : compile pat = .ok re) :
    substitute path pat fmt w =
      match replace_in_file path re fmt.toList w with
      | (true, w1) => .ok w1
      | (false, w1) => .failed w1 := by
  simp [substitute, withRegex, h]

/-- A failing substitution step only adds an error line. -/
theorem substitute_failed (path pat fmt : String) (w wf : World)
    (h : substitute path pat fmt w = .failed wf) : ∃ msg, wf = w.cerr msg := by
  unfold substitute withRegex at h
  cases hc : compile pat with
  | regex_error => simp [hc] at h
  | unsupported => simp [hc] at h
  | ok re =>
    simp only [hc] at h
    rcases replace_in_file_cases path re fmt.toList w with
      ⟨_, e⟩ | ⟨c, _, _, e⟩ | ⟨f, _, _, _, _, e⟩ | ⟨f, _, _, _, _, e⟩ <;> rw [e] at h <;>
      simp at h
    · exact ⟨_, h.symm⟩
    · exact ⟨_, h.symm⟩

/-- A substitution step that goes through touches no other file and leaves its
target readable. -/
theorem substitute_ok (path pat fmt : String) (w w1 : World)
    (h : substitute path pat fmt w = .ok w1) :
    (∀ q, q ≠ path → w1.files.lookup q = w.files.lookup q) ∧ w1.read path ≠ none := by
  unfold substitute withRegex at h
  cases hc : compile pat with
  | regex_error => simp [hc] at h
  | unsupported => simp [hc] at h
  | ok re =>
    simp only [hc] at h
    rcases replace_in_file_cases path re fmt.toList w with
      ⟨_, e⟩ | ⟨c, hr, _, e⟩ | ⟨f, _, _, _, _, e⟩ | ⟨f, hl, hr, _, _, e⟩ <;> rw [e] at h <;>
      simp at h
    · subst h
      refine ⟨fun q _ => rfl, ?_⟩
      show w.read path ≠ none
      rw [hr]
      simp
    · subst h
      refine ⟨fun q hq => by simp [lookup_store_ne path q _ _ hq], ?_⟩
      simp [World.read, lookup_store_self, hr]

/-- A substitution step on a file that cannot be read fails with an error line,
provided its pattern can be constructed. -/
theorem substitute_unreadable (path pat fmt : String) (re : Regex) (w : World)
    (hc : compile pat = .ok re) (h : w.read path = none) :
    substitute path pat fmt w =
      .failed (w.cerr ("[ERROR] Unable to open file for reading: " ++ path ++ "\n")) := by
  rw [substitute_of_compile path pat fmt re w hc]
  simp [replace_in_file, h]

theorem appendStep_failed (path snippet : String) (w wf : World)
    (h : appendStep path snippet w = .failed wf) : ∃ msg, wf = w.cerr msg := by
  unfold appendStep append_if_missing at h
  split at h
  · simp at h
  · rename_i w1 heq
    simp only [StepResult.failed.injEq] at h
    subst h
    split at heq
    · exact ⟨_, (Prod.mk.inj heq).2.symm⟩
    · split at heq
      · simp at heq
      · split at heq
        · exact ⟨_, (Prod.mk.inj heq).2.symm⟩
        · simp at heq

theorem main_step5_failed (w wf : World) (h : main_step5 w = .failed wf) :
    ∃ msg, wf = w.cerr msg := by
  unfold main_step5 at h
  split at h
  · exact ⟨_, (StepResult.failed.inj h).symm⟩
  · split at h
    · simp only [withRegex, compile_exitsetup] at h
      split at h
      · exact ⟨_, (StepResult.failed.inj h).symm⟩
      · simp at h
    · simp at h

theorem main_step7_failed (w wf : World) (h : main_step7 w = .failed wf) :
    ∃ msg, wf = w.cerr msg := by
  unfold main_step7 at h
  split at h
  · exact ⟨_, (StepResult.failed.inj h).symm⟩
  · split at h
    · simp only [withRegex, compile_showmode] at h
      split at h
      · exact ⟨_, (StepResult.failed.inj h).symm⟩
      · simp at h
    · simp at h

/-- The plan of `main` written out: fourteen steps. -/
theorem mainPlan_eq :
    mainPlan =
      [ ⟨"src/Makefile", substitute "src/Makefile" "^(TARGET\\s*=\\s*).*" "$1nocursor"⟩,
        ⟨"src/version.c", substitute "src/version.c"
          "#define\\s+VIM_VERSION_MEDIUM\\s+\\\".*\\\"" "#define VIM_VERSION_MEDIUM  \"NoCursor\""⟩,
        ⟨"src/version.c", substitute "src/version.c" "#define\\s+VIM_VERSION_LONG\\s+\\\".*\\\""
          "#define VIM_VERSION_LONG    \"Vim-NoCursor v0.1 Minimal\""⟩,
        ⟨"src/version.c", substitute "src/version.c"
          "void\\s+do_intro\\s*\\(\\)\\s*\x7b[^\x7d]*\x7d" splash_function⟩,
        ⟨"src/term.c", appendStep "src/term.c" hide_cursor_code⟩,
        ⟨"src/main.c", main_step5⟩,
        ⟨"src/option.c", substitute "src/option.c" "p_number\\s*=\\s*\\d+;" "p_number = 0;"⟩,
        ⟨"src/option.c", substitute "src/option.c" "p_ruler\\s*=\\s*\\d+;" "p_ruler = 0;"⟩,
        ⟨"src/option.c", substitute "src/option.c" "p_showcmd\\s*=\\s*\\d+;" "p_showcmd = 0;"⟩,
        ⟨"src/option.c", substitute "src/option.c" "p_ls\\s*=\\s*\\d+;" "p_ls = 0;"⟩,
        ⟨"src/option.c", substitute "src/option.c" "p_laststatus\\s*=\\s*\\d+;"
          "p_laststatus = 0;"⟩,
        ⟨"src/option.c", substitute "src/option.c" "p_showmode\\s*=\\s*\\d+;" "p_showmode = 0;"⟩,
        ⟨"src/option.c", substitute "src/option.c" "p_cmdheight\\s*=\\s*\\d+;"
          "p_cmdheight = 1;"⟩,
        ⟨"src/normal.c", main_step7⟩ ] :=
  rfl

/-- Every step of the plan, when it fails, leaves the files alone and adds one
error line. -/
theorem mainPlan_failed (s : Step) (hs : s ∈ mainPlan) (w wf : World)
    (h : s.exec w = .failed wf) : ∃ msg, wf = w.cerr msg := by
  simp only [mainPlan_eq, List.mem_cons, List.mem_singleton, List.not_mem_nil, or_false] at hs
  rcases hs with rfl | rfl | rfl | rfl | rfl | rfl | rfl | rfl | rfl | rfl | rfl | rfl | rfl | rfl
  all_goals dsimp only at h
  all_goals first
    | exact substitute_failed _ _ _ w wf h
    | exact appendStep_failed _ _ w wf h
    | exact main_step5_failed w wf h
    | exact main_step7_failed w wf h

/-! ## Running a plan -/

theorem runSteps_append (l1 l2 : List Step) (w : World) :
    runSteps (l1 ++ l2) w =
      match runSteps l1 w with
      | .ok w1 => runSteps l2 w1
      | r => r := by
  induction l1 generalizing w with
  | nil => simp [runSteps]
  | cons s rest ih =>
    simp only [List.cons_append, runSteps]
    cases hs : s.exec w with
    | ok w1 => simp [ih]
    | failed w1 => simp
    | threw w1 => simp
    | unmodelled w1 => simp

/-- The engine is fail-fast: when the steps before `k` go through and step `k`
does not, the run ends with the result of step `k`. -/
theorem runSteps_stops (plan : List Step) (k : Nat) (hk : k < plan.length) (w wk : World)
    (hpre : runSteps (plan.take k) w = .ok wk) (r : StepResult)
    (hr : (plan.get ⟨k, hk⟩).exec wk = r) (hnot : ∀ w1, r ≠ .ok w1) :
    runSteps plan w = r := by
  have hsplit : plan = plan.take k ++ plan.get ⟨k, hk⟩ :: plan.drop (k + 1) := by
    simp
  rw [hsplit, runSteps_append, hpre]
  simp only [runSteps]
  rw [hr]
  cases r with
  | ok w1 => exact absurd rfl (hnot w1)
  | failed w1 => rfl
  | threw w1 => rfl
  | unmodelled w1 => rfl

/-- Steps that go through touch only their own targets. -/
theorem runSteps_frame (plan : List Step)
    (hframe : ∀ s ∈ plan, ∀ w w1, s.exec w = .ok w1 →
      ∀ q, q ≠ s.target → w1.files.lookup q = w.files.lookup q)
    (w wk : World) (h : runSteps plan w = .ok wk) (q : String)
    (hq : ∀ s ∈ plan, s.target ≠ q) : wk.files.lookup q = w.files.lookup q := by
  induction plan generalizing w with
  | nil =>
    simp [runSteps] at h
    rw [h]
  | cons s rest ih =>
    simp only [runSteps] at h
    cases hs : s.exec w with
    | ok w1 =>
      rw [hs] at h
      have h1 := ih (fun s' hs' => hframe s' (List.mem_cons_of_mem _ hs')) w1 h
        (fun s' hs' => hq s' (List.mem_cons_of_mem _ hs'))
      rw [h1]
      exact hframe s (List.mem_cons_self _ _) w w1 hs q
        (fun e => hq s (List.mem_cons_self _ _) e.symm)
    | failed w1 => rw [hs] at h; simp at h
    | threw w1 => rw [hs] at h; simp at h
    | unmodelled w1 => rw [hs] at h; simp at h

theorem openWrite_put_frame (w w1 : World) (path : String) (append : Bool) (data : Text)
    (h : w.openWrite path append = some w1) (q : String) (hq : q ≠ path) :
    (w1.put path data).files.lookup q = w.files.lookup q := by
  unfold World.openWrite at h
  cases hl : w.files.lookup path with
  | none =>
    simp only [hl, Option.some.injEq] at h
    subst h
    simp [World.put, lookup_store_self, lookup_store_ne path q _ _ hq]
  | some f =>
    cases hw : f.writable with
    | false => simp [hl, hw] at h
    | true =>
      simp only [hl, hw, if_true, Option.some.injEq] at h
      subst h
      simp [World.put, lookup_store_self, lookup_store_ne path q _ _ hq]

theorem appendStep_ok (path snippet : String) (w w1 : World)
    (h : appendStep path snippet w = .ok w1) (q : String) (hq : q ≠ path) :
    w1.files.lookup q = w.files.lookup q := by
  unfold appendStep append_if_missing at h
  split at h
  · rename_i w2 heq
    simp only [StepResult.ok.injEq] at h
    subst h
    split at heq
    · simp at heq
    · split at heq
      · rw [← (Prod.mk.inj heq).2]
        rfl
      · split at heq
        · simp at heq
        · rename_i w3 ho
          rw [← (Prod.mk.inj heq).2]
          exact openWrite_put_frame w w3 path true _ ho q hq
  · simp at h

theorem main_step5_ok (w w1 : World) (h : main_step5 w = .ok w1) (q : String)
    (hq : q ≠ "src/main.c") : w1.files.lookup q = w.files.lookup q := by
  unfold main_step5 at h
  split at h
  · simp at h
  · split at h
    · simp only [withRegex, compile_exitsetup] at h
      split at h
      · simp at h
      · rename_i w3 ho
        rw [← StepResult.ok.inj h]
        exact openWrite_put_frame w w3 _ false _ ho q hq
    · rw [← StepResult.ok.inj h]
      rfl

theorem main_step7_ok (w w1 : World) (h : main_step7 w = .ok w1) (q : String)
    (hq : q ≠ "src/normal.c") : w1.files.lookup q = w.files.lookup q := by
  unfold main_step7 at h
  split at h
  · simp at h
  · split at h
    · simp only [withRegex, compile_showmode] at h
      split at h
      · simp at h
      · rename_i w3 ho
        rw [← StepResult.ok.inj h]
        exact openWrite_put_frame w w3 _ false _ ho q hq
    · rw [← StepResult.ok.inj h]
      rfl

/-- Every step of the plan that goes through touches no file but its target. -/
theorem mainPlan_frame (s : Step) (hs : s ∈ mainPlan) (w w1 : World)
    (h : s.exec w = .ok w1) (q : String) (hq : q ≠ s.target) :
    w1.files.lookup q = w.files.lookup q := by
  simp only [mainPlan_eq, List.mem_cons, List.mem_singleton, List.not_mem_nil, or_false] at hs
  rcases hs with rfl | rfl | rfl | rfl | rfl | rfl | rfl | rfl | rfl | rfl | rfl | rfl | rfl | rfl
  all_goals dsimp only at h hq
  all_goals first
    | exact (substitute_ok _ _ _ w w1 h).1 q hq
    | exact appendStep_ok _ _ w w1 h q hq
    | exact main_step5_ok w w1 h q hq
    | exact main_step7_ok w w1 h q hq

theorem main_of_runSteps_failed (w wf : World) (h : runSteps mainPlan (started w) = .failed wf) :
    main w = (.returned 1, wf) := by
  simp [main, h]

/-- The run of `main` never gets past step 3: its pattern cannot be constructed. -/
theorem runSteps_mainPlan_blocked (k : Nat) (hk : 4 ≤ k) (w wk : World) :
    runSteps (mainPlan.take k) w ≠ .ok wk := by
  obtain ⟨m, rfl⟩ : ∃ m, k = 3 + (m + 1) := ⟨k - 4, by omega⟩
  rw [List.take_add, runSteps_append]
  cases h3 : runSteps (mainPlan.take 3) w with
  | ok w3 =>
    have hthrow : runSteps ((mainPlan.drop 3).take (m + 1)) w3 = .threw w3 := by
      simp [mainPlan_eq, runSteps, substitute, withRegex, compile_do_intro]
    simp [hthrow]
  | failed w3 => simp
  | threw w3 => simp
  | unmodelled w3 => simp

theorem compile_version_medium :
    compile "#define\\s+VIM_VERSION_MEDIUM\\s+\\\".*\\\""
      = .ok (versionRegex "VIM_VERSION_MEDIUM") := by
  decide

theorem compile_version_long :
    compile "#define\\s+VIM_VERSION_LONG\\s+\\\".*\\\""
      = .ok (versionRegex "VIM_VERSION_LONG") := by
  decide

/-! ## The inline steps 5 and 7 -/

/-- C9 at a failing input: a call of `showmode()` on the second line of
`src/normal.c` is not rewritten by step 7 (`^` matches at the beginning of the
content only), although the step reports `[SUCCESS]`; and a run of `main` on a
tree with that file ends at step 3 without reaching step 7. -/
theorem main_step7_misses_call :
    main_step7 ⟨[("src/normal.c", ⟨"int x;\n    showmode();\n".toList, true, true⟩)], []⟩ =
      .ok ⟨[("src/normal.c", ⟨"int x;\n    showmode();\n".toList, true, true⟩)],
        [.cout "[SUCCESS] Commented out 'showmode()' calls in 'src/normal.c'.\n",
          .openedForWrite "src/normal.c" false]⟩ ∧
    (main ⟨[("src/Makefile", ⟨[], true, true⟩), ("src/version.c", ⟨[], true, true⟩),
        ("src/term.c", ⟨[], true, true⟩), ("src/main.c", ⟨[], true, true⟩),
        ("src/option.c", ⟨[], true, true⟩),
        ("src/normal.c", ⟨"int x;\n    showmode();\n".toList, true, true⟩)], []⟩).1
      = .terminated ∧
    (main ⟨[("src/Makefile", ⟨[], true, true⟩), ("src/version.c", ⟨[], true, true⟩),
        ("src/term.c", ⟨[], true, true⟩), ("src/main.c", ⟨[], true, true⟩),
        ("src/option.c", ⟨[], true, true⟩),
        ("src/normal.c", ⟨"int x;\n    showmode();\n".toList, true, true⟩)], []⟩).2.files.lookup
        "src/normal.c"
      = some ⟨"int x;\n    showmode();\n".toList, true, true⟩ := by
  decide

/-! ## Facts about the matcher -/

theorem run_foldl_seq (rs : List Regex) :
    ∀ (r : Regex) (b : Bool) (x : MState) (c : Cont),
      (rs.foldl .seq r).run b x c = r.run b x (fun y => runList rs b y c) := by
  induction rs with
  | nil => intro r b x c; rfl
  | cons a rs ih =>
    intro r b x c
    rw [List.foldl_cons, ih]
    rfl

theorem run_seqs (r : Regex) (rs : List Regex) (b : Bool) (x : MState) (c : Cont) :
    (seqs (r :: rs)).run b x c = runList (r :: rs) b x c := by
  rw [seqs, run_foldl_seq]
  rfl

theorem runList_append (l1 l2 : List Regex) (b : Bool) :
    ∀ (x : MState) (c : Cont),
      runList (l1 ++ l2) b x c = runList l1 b x (fun y => runList l2 b y c) := by
  induction l1 with
  | nil => intro x c; rfl
  | cons r rs ih =>
    intro x c
    simp only [List.cons_append, runList]
    congr 1
    funext y
    exact ih y c

/-- A literal text matches exactly when it is a prefix of the input. -/
theorem runList_chars (s : Text) (b : Bool) :
    ∀ (x : MState) (c : Cont),
      runList (s.map .chr) b x c =
        if s.isPrefixOf x.rest then c ⟨x.consumed + s.length, x.rest.drop s.length, x.caps⟩
        else none := by
  induction s with
  | nil => intro x c; simp [runList]
  | cons a s ih =>
    intro x c
    simp only [List.map_cons, runList, Regex.run]
    cases hx : x.rest with
    | nil => simp [List.isPrefixOf]
    | cons e t =>
      by_cases hae : a = e
      · subst hae
        simp only [if_true, ih, List.isPrefixOf, beq_self_eq_true, Bool.true_and,
          List.length_cons, List.drop_succ_cons]
        congr 2
        simp only [MState.mk.injEq, and_true, true_and]
        omega
      · have hne : (a == e) = false := by simpa using hae
        simp [hae, List.isPrefixOf, hne]

theorem clearCaps_nil (x : MState) : clearCaps [] x = x := by
  simp [clearCaps]

theorem run_set_cons (cs : CharSet) (b : Bool) (n : Nat) (a : Char) (t : Text)
    (caps : List (Nat × Text)) (k : Cont) :
    (Regex.set cs).run b ⟨n, a :: t, caps⟩ k = if cs.test a then k ⟨n + 1, t, caps⟩ else none :=
  rfl

theorem run_set_nil (cs : CharSet) (b : Bool) (n : Nat) (caps : List (Nat × Text)) (k : Cont) :
    (Regex.set cs).run b ⟨n, [], caps⟩ k = none :=
  rfl

/-- The repetition of a character class is the greedy run of its closed form,
as soon as the fuel exceeds the length of the input. -/
theorem starLoop_set (cs : CharSet) (b : Bool) (c : Cont) (caps : List (Nat × Text)) :
    ∀ (fuel n : Nat) (rest : Text), rest.length < fuel →
      starLoop ((Regex.set cs).run b) [] fuel ⟨n, rest, caps⟩ c
        = greedyRun cs.test c caps n rest := by
  intro fuel
  induction fuel with
  | zero => intro n rest h; omega
  | succ fuel ih =>
    intro n rest h
    rw [starLoop, clearCaps_nil]
    cases rest with
    | nil => rw [run_set_nil, greedyRun]
    | cons a t =>
      rw [run_set_cons, greedyRun]
      by_cases hp : cs.test a = true
      · have hlt : t.length < fuel := by simpa using h
        simp only [hp, if_true, Nat.succ_ne_self, if_false, ih (n + 1) t hlt]
      · simp [hp]

theorem run_star_set (cs : CharSet) (b : Bool) (x : MState) (c : Cont) :
    (Regex.star (.set cs)).run b x c = greedyRun cs.test c x.caps x.consumed x.rest := by
  cases x with
  | mk n rest caps =>
    show starLoop ((Regex.set cs).run b) [] (rest.length + 1) ⟨n, rest, caps⟩ c = _
    exact starLoop_set cs b c caps _ n rest (Nat.lt_succ_self _)

/-- When the continuation accepts after the longest run, the greedy repetition
ends there. -/
theorem greedyRun_of_some (p : Char → Bool) (c : Cont) (caps : List (Nat × Text)) :
    ∀ (rest : Text) (n : Nat) (z : MState),
      c ⟨n + (rest.takeWhile p).length, rest.dropWhile p, caps⟩ = some z →
      greedyRun p c caps n rest = some z := by
  intro rest
  induction rest with
  | nil => intro n z h; simpa [greedyRun] using h
  | cons a t ih =>
    intro n z h
    rw [greedyRun]
    by_cases hp : p a = true
    · have h1 : c ⟨n + 1 + (t.takeWhile p).length, t.dropWhile p, caps⟩ = some z := by
        simpa [List.takeWhile, List.dropWhile, hp, Nat.add_assoc, Nat.add_comm 1] using h
      simp [hp, ih (n + 1) z h1]
    · have h1 : c ⟨n, a :: t, caps⟩ = some z := by
        simpa [List.takeWhile, List.dropWhile, hp] using h
      simp [hp, h1]

/-- When the continuation refuses after every shorter run, the greedy repetition
is the continuation after the longest run. -/
theorem greedyRun_of_shorter_none (p : Char → Bool) (c : Cont) (caps : List (Nat × Text)) :
    ∀ (rest : Text) (n : Nat),
      (∀ k, k < (rest.takeWhile p).length → c ⟨n + k, rest.drop k, caps⟩ = none) →
      greedyRun p c caps n rest
        = c ⟨n + (rest.takeWhile p).length, rest.dropWhile p, caps⟩ := by
  intro rest
  induction rest with
  | nil => intro n _; simp [greedyRun]
  | cons a t ih =>
    intro n h
    rw [greedyRun]
    by_cases hp : p a = true
    · have h0 : c ⟨n, a :: t, caps⟩ = none := by
        simpa using h 0 (by simp [List.takeWhile, hp])
      have hrest : ∀ k, k < (t.takeWhile p).length → c ⟨n + 1 + k, t.drop k, caps⟩ = none := by
        intro k hk
        have := h (k + 1) (by simpa [List.takeWhile, hp] using hk)
        simpa [Nat.add_assoc, Nat.add_comm 1] using this
      rw [ih (n + 1) hrest]
      simp only [hp, if_true, h0, List.takeWhile, List.dropWhile, List.length_cons]
      have e : n + 1 + (t.takeWhile p).length = n + ((t.takeWhile p).length + 1) := by omega
      rw [e]
      cases c ⟨n + ((t.takeWhile p).length + 1), t.dropWhile p, caps⟩ <;> rfl
    · simp [hp, List.takeWhile, List.dropWhile]

theorem run_seqs_all (l : List Regex) (b : Bool) (x : MState) (c : Cont) :
    (seqs l).run b x c = runList l b x c := by
  cases l with
  | nil => rfl
  | cons r rs => exact run_seqs r rs b x c

theorem run_chr_cons (a : Char) (b : Bool) (n : Nat) (e : Char) (t : Text)
    (caps : List (Nat × Text)) (k : Cont) :
    (Regex.chr a).run b ⟨n, e :: t, caps⟩ k = if a = e then k ⟨n + 1, t, caps⟩ else none :=
  rfl

theorem run_chr_nil (a : Char) (b : Bool) (n : Nat) (caps : List (Nat × Text)) (k : Cont) :
    (Regex.chr a).run b ⟨n, [], caps⟩ k = none :=
  rfl

theorem takeWhile_append_dropWhile_length (p : Char → Bool) (l : Text) :
    (l.takeWhile p).length + (l.dropWhile p).length = l.length := by
  induction l with
  | nil => rfl
  | cons a t ih =>
    by_cases hp : p a = true
    · simp [List.takeWhile, List.dropWhile, hp]
      omega
    · simp [List.takeWhile, List.dropWhile, hp]

theorem drop_takeWhile_length (p : Char → Bool) (l : Text) :
    l.drop (l.takeWhile p).length = l.dropWhile p := by
  induction l with
  | nil => rfl
  | cons a t ih =>
    by_cases hp : p a = true
    · simp [List.takeWhile, List.dropWhile, hp, ih]
    · simp [List.takeWhile, List.dropWhile, hp]

/-- Inside the longest run of a class, the next character is of the class. -/
theorem head_of_drop_in_run (p : Char → Bool) :
    ∀ (l : Text) (k : Nat), k < (l.takeWhile p).length →
      ∃ a t, l.drop k = a :: t ∧ p a = true := by
  intro l
  induction l with
  | nil => intro k hk; simp at hk
  | cons a t ih =>
    intro k hk
    by_cases hp : p a = true
    · cases k with
      | zero => exact ⟨a, t, rfl, hp⟩
      | succ k =>
        have hk' : k < (t.takeWhile p).length := by
          simpa [List.takeWhile, hp] using hk
        simpa using ih k hk'
    · simp [List.takeWhile, hp] at hk

/-! ## The pattern of step 1 in closed form -/

theorem isSpace_ne_eq (a : Char) (h : isSpace a = true) : '=' ≠ a := by
  intro e
  subst e
  exact absurd h (by decide)

/-- The tail `.*` of the pattern of step 1, followed by the end of the match. -/
theorem run_any_star_final (nn : Bool) (n : Nat) (rest : Text) (caps : List (Nat × Text))
    (hn : n ≠ 0) :
    (Regex.star (.set .any)).run true ⟨n, rest, caps⟩
        (fun y => if nn && y.consumed == 0 then none else some y)
      = some ⟨n + (rest.takeWhile notLineTerminator).length,
          rest.dropWhile notLineTerminator, caps⟩ := by
  rw [run_star_set]
  apply greedyRun_of_some
  have h0 : (n + (rest.takeWhile notLineTerminator).length == 0) = false := by
    simp [hn]
  show (if nn && (n + (List.takeWhile CharSet.any.test rest).length == 0) then none
    else some _) = _
  have e : CharSet.any.test = notLineTerminator := rfl
  rw [e, h0]
  simp

/-- The part `\s*=\s*` of the pattern of step 1 and what follows it. -/
theorem run_spaces_eq_spaces (n : Nat) (rest : Text) (caps : List (Nat × Text)) (K : Cont)
    (hK : ∀ m r, n < m → K ⟨m, r, caps⟩ ≠ none) :
    runList [spaces, .chr '=', spaces] true ⟨n, rest, caps⟩ K =
      match rest.dropWhile isSpace with
      | [] => none
      | a :: c3 =>
        if a = '=' then
          K ⟨n + (rest.takeWhile isSpace).length + 1 + (c3.takeWhile isSpace).length,
            c3.dropWhile isSpace, caps⟩
        else none := by
  have e : CharSet.space.test = isSpace := rfl
  simp only [runList, spaces]
  rw [run_star_set, e]
  rw [greedyRun_of_shorter_none]
  · cases hd : rest.dropWhile isSpace with
    | nil => exact run_chr_nil _ _ _ _ _
    | cons a c3 =>
      simp only
      rw [run_chr_cons]
      by_cases ha : a = '='
      · subst ha
        simp only [if_true]
        rw [run_star_set, e]
        cases hk : K ⟨n + (rest.takeWhile isSpace).length + 1 + (c3.takeWhile isSpace).length,
            c3.dropWhile isSpace, caps⟩ with
        | none => exact absurd hk (hK _ _ (by omega))
        | some z => exact greedyRun_of_some isSpace _ caps c3 _ z hk
      · have ha' : ¬ '=' = a := fun h => ha h.symm
        simp [ha, ha']
  · intro k hk
    obtain ⟨a, t, hdrop, hp⟩ := head_of_drop_in_run isSpace rest k hk
    simp only [hdrop]
    rw [run_chr_cons]
    simp [isSpace_ne_eq a hp]

theorem take_of_eq_append (c g r : Text) (n : Nat) (h : c = g ++ r) (hn : n = g.length) :
    c.take n = g := by
  rw [h, hn, List.take_left]

theorem run_group (i : Nat) (p : Regex) (b : Bool) (x : MState) (c : Cont) :
    (Regex.group i p).run b x c =
      p.run b x
        (fun y => c { y with caps := setCap i (x.rest.take (y.consumed - x.consumed)) y.caps }) :=
  rfl

theorem run_bol (b : Bool) (x : MState) (c : Cont) :
    Regex.bol.run b x c = if b && x.consumed == 0 then c x else none :=
  rfl

/-- A pattern that begins with `^` fails wherever `^` is not allowed. -/
theorem runList_bol_false (rs : List Regex) (x : MState) (c : Cont) :
    runList (.bol :: rs) false x c = none := by
  simp [runList, run_bol]

/-- The match of the pattern of step 1 at the beginning of a text. -/
theorem matchHere_target (c : Text) (nn : Bool) :
    matchHere targetRegex true nn c =
      match targetSplit c with
      | none => none
      | some (g, v, rest) => some ⟨g.length + v.length, rest, [(1, g)]⟩ := by
  unfold matchHere
  have hrun : ∀ fin : Cont, targetRegex.run true ⟨0, c, []⟩ fin =
      runList ("TARGET".toList.map .chr) true ⟨0, c, []⟩
        (fun y => runList [spaces, .chr '=', spaces] true y
          (fun u => (Regex.star (.set .any)).run true
            ⟨u.consumed, u.rest, setCap 1 (c.take (u.consumed - 0)) u.caps⟩ fin)) :=
    fun _ => rfl
  rw [hrun, runList_chars]
  unfold targetSplit
  have h6 : "TARGET".toList.length = 6 := rfl
  by_cases hp : "TARGET".toList.isPrefixOf c = true
  · simp only [hp, if_true, h6]
    rw [run_spaces_eq_spaces]
    · dsimp only
      cases hd : (c.drop 6).dropWhile isSpace with
      | nil => rfl
      | cons a c3 =>
        dsimp only
        by_cases ha : a = '='
        · subst ha
          simp only [if_true]
          rw [run_any_star_final nn _ _ _ (by omega)]
          have hpre : c = "TARGET".toList ++ c.drop 6 := by
            obtain ⟨t, ht⟩ := List.isPrefixOf_iff_prefix.mp hp
            rw [← ht]
            simp
          have h1 : c.drop 6 = (c.drop 6).takeWhile isSpace ++ '=' :: c3 := by
            conv_lhs => rw [← List.takeWhile_append_dropWhile isSpace (c.drop 6), hd]
          have h2 : c3 = c3.takeWhile isSpace ++ c3.dropWhile isSpace :=
            (List.takeWhile_append_dropWhile isSpace c3).symm
          have hlen : (0 + 6 + ((c.drop 6).takeWhile isSpace).length + 1
                + (c3.takeWhile isSpace).length - 0)
                = ("TARGET".toList ++ (c.drop 6).takeWhile isSpace
                    ++ '=' :: c3.takeWhile isSpace).length := by
            simp only [List.length_append, List.length_cons, h6]
            omega
          have hg : c.take (0 + 6 + ((c.drop 6).takeWhile isSpace).length + 1
                + (c3.takeWhile isSpace).length - 0)
              = "TARGET".toList ++ (c.drop 6).takeWhile isSpace ++ '=' :: c3.takeWhile isSpace := by
            have e : c = ("TARGET".toList ++ (c.drop 6).takeWhile isSpace
                  ++ '=' :: c3.takeWhile isSpace) ++ c3.dropWhile isSpace := by
              conv_lhs => rw [hpre, h1, h2]
              simp
            exact take_of_eq_append c _ _ _ e hlen
          rw [hg]
          simp only [setCap, List.filter_nil, Option.some.injEq, MState.mk.injEq, and_true,
            List.length_append, List.length_cons, h6]
          omega
        · simp [ha]
    · intro m r hm
      rw [run_any_star_final nn m _ _ (by omega)]
      simp
  · have hp' : "TARGET".toList.isPrefixOf c = false := eq_false_of_ne_true hp
    simp only [hp', Bool.false_eq_true, if_false]

/-! ## Replacing with a pattern that begins with `^` -/

theorem searchFrom_anchored_false (re : Regex) (nn : Bool)
    (hre : ∀ s, matchHere re false nn s = none) (t : Text) :
    ∀ off, searchFrom re nn false off t = none := by
  induction t with
  | nil => intro off; simp [searchFrom, hre]
  | cons a t ih => intro off; simp [searchFrom, hre, ih]

theorem searchFrom_anchored_true (re : Regex) (nn : Bool)
    (hre : ∀ s, matchHere re false nn s = none) (c : Text) :
    searchFrom re nn true 0 c = (matchHere re true nn c).map (fun y => (0, y)) := by
  cases c with
  | nil => rfl
  | cons a t =>
    rw [searchFrom]
    cases matchHere re true nn (a :: t) with
    | none => simp [searchFrom_anchored_false re nn hre t]
    | some y => rfl

/-- A pattern that begins with `^` and has no match at the beginning of the
content leaves the content unchanged. -/
theorem regex_replace_anchored_none (re : Regex) (c fmt : Text)
    (hre : ∀ s, matchHere re false false s = none) (h : matchHere re true false c = none) :
    regex_replace c re fmt = c := by
  simp [regex_replace, regex_search, searchFrom_anchored_true re false hre c, h]

/-- A pattern that begins with `^` replaces at most the match at the beginning
of the content: the rest is copied. -/
theorem regex_replace_anchored_some (re : Regex) (c fmt : Text) (y : MState)
    (hre : ∀ s, matchHere re false false s = none) (h : matchHere re true false c = some y)
    (hy : y.consumed ≠ 0) :
    regex_replace c re fmt = format (mkResults re [] c 0 y) fmt ++ y.rest := by
  have h0 : (y.consumed == 0) = false := by simpa using hy
  simp [regex_replace, regex_search, searchFrom_anchored_true re false hre c, h, h0,
    Nat.mul_add, replaceLoop, searchFrom_anchored_false re false hre y.rest]

theorem target_anchored (nn : Bool) (s : Text) : matchHere targetRegex false nn s = none := by
  unfold matchHere targetRegex
  rw [run_seqs_all, runList_bol_false]

/-- The substitution of step 1 in closed form. -/
theorem regex_replace_target (c fmt : Text) :
    regex_replace c targetRegex fmt =
      match targetSplit c with
      | none => c
      | some (g, v, rest) =>
        format ⟨[], c.take (g.length + v.length), rest, [(1, g)], 2⟩ fmt ++ rest := by
  have hm := matchHere_target c false
  cases hs : targetSplit c with
  | none =>
    rw [hs] at hm
    exact regex_replace_anchored_none _ c fmt (target_anchored false) hm
  | some gvr =>
    obtain ⟨g, v, rest⟩ := gvr
    rw [hs] at hm
    have hg : g.length ≠ 0 := by
      unfold targetSplit at hs
      split at hs
      · split at hs
        · simp at hs
        · split at hs
          · simp only [Option.some.injEq, Prod.mk.injEq] at hs
            rw [← hs.1]
            simp
          · simp at hs
      · simp at hs
    have hy : (MState.mk (g.length + v.length) rest [(1, g)]).consumed ≠ 0 := by
      show g.length + v.length ≠ 0
      omega
    rw [regex_replace_anchored_some _ c fmt _ (target_anchored false) hm hy]
    rfl

/-! ## Templates -/

theorem format_cons_ne (m : MatchResults) (a : Char) (t : Text) (h : a ≠ '$') :
    format m (a :: t) = a :: format m t := by
  cases t with
  | nil => simp [format]
  | cons d t2 =>
    cases t2 with
    | nil => simp [format, h]
    | cons d2 t3 => simp [format, h]

/-- A template without `$` stands for itself. -/
theorem format_plain (m : MatchResults) (r : Text) (h : '$' ∉ r) : format m r = r := by
  induction r with
  | nil => rfl
  | cons a t ih =>
    have ha : a ≠ '$' := fun e => h (by simp [e])
    have ht : '$' ∉ t := fun e => h (List.mem_cons_of_mem _ e)
    rw [format_cons_ne m a t ha, ih ht]

/-- The template `$1` followed by a text without `$` that does not begin with a
digit: group 1 followed by the text. -/
theorem format_group_one (m : MatchResults) (r : Text) (h : '$' ∉ r)
    (hd : ∀ d, r.head? = some d → isDigit d = false) (hm : 1 < m.size) :
    format m ('$' :: '1' :: r) = m.sub 1 ++ r := by
  have h1 : digitVal '1' = 1 := by decide
  have h2 : isDigit '1' = true := by decide
  cases r with
  | nil => simp [format, h1, h2, hm]
  | cons d2 t3 =>
    have hd2 : isDigit d2 = false := hd d2 rfl
    have e : format m ('$' :: '1' :: d2 :: t3) = m.sub 1 ++ format m (d2 :: t3) := by
      simp [format, h1, h2, hd2, hm]
    rw [e, format_plain m _ h]

/-! ## The substitution of step 1 on a `TARGET` line -/

theorem takeWhile_run (p : Char → Bool) (l1 : Text) (a : Char) (l2 : Text)
    (h1 : ∀ x ∈ l1, p x = true) (ha : p a = false) :
    (l1 ++ a :: l2).takeWhile p = l1 ∧ (l1 ++ a :: l2).dropWhile p = a :: l2 := by
  induction l1 with
  | nil => simp [List.takeWhile, List.dropWhile, ha]
  | cons x t ih =>
    have hx : p x = true := h1 x (List.mem_cons_self _ _)
    have ht := ih (fun y hy => h1 y (List.mem_cons_of_mem _ hy))
    simp [List.takeWhile, List.dropWhile, hx, ht.1, ht.2]

theorem takeWhile_all (p : Char → Bool) (l : Text) (h : ∀ x ∈ l, p x = true) :
    l.takeWhile p = l ∧ l.dropWhile p = [] := by
  induction l with
  | nil => simp
  | cons x t ih =>
    have hx : p x = true := h x (List.mem_cons_self _ _)
    have ht := ih (fun y hy => h y (List.mem_cons_of_mem _ hy))
    simp [List.takeWhile, List.dropWhile, hx, ht.1, ht.2]

/-- The closed form of the match on a line `TARGET w1 = w2 v` followed by a text
that begins with a line terminator or is empty. -/
theorem targetSplit_line (w1 w2 v rest : Text)
    (hw1 : ∀ a ∈ w1, isSpace a = true) (hw2 : ∀ a ∈ w2, isSpace a = true)
    (hv : ∀ a ∈ v, isLineTerminator a = false)
    (hvs : ∀ a, (v ++ rest).head? = some a → isSpace a = false)
    (hrest : ∀ a, rest.head? = some a → isLineTerminator a = true) :
    targetSplit ("TARGET".toList ++ w1 ++ '=' :: w2 ++ v ++ rest)
      = some ("TARGET".toList ++ w1 ++ '=' :: w2, v, rest) := by
  have hpre : "TARGET".toList.isPrefixOf ("TARGET".toList ++ w1 ++ '=' :: w2 ++ v ++ rest)
      = true := by
    rw [List.isPrefixOf_iff_prefix]
    exact ⟨w1 ++ '=' :: w2 ++ v ++ rest, by simp⟩
  have hdrop : ("TARGET".toList ++ w1 ++ '=' :: w2 ++ v ++ rest).drop 6
      = w1 ++ '=' :: (w2 ++ v ++ rest) := by
    have : ("TARGET".toList ++ w1 ++ '=' :: w2 ++ v ++ rest)
        = "TARGET".toList ++ (w1 ++ '=' :: (w2 ++ v ++ rest)) := by simp
    rw [this]
    exact List.drop_left' rfl
  have h1 := takeWhile_run isSpace w1 '=' (w2 ++ v ++ rest) hw1 (by decide)
  have h2 : (w2 ++ v ++ rest).takeWhile isSpace = w2 ∧
      (w2 ++ v ++ rest).dropWhile isSpace = v ++ rest := by
    cases hvr : v ++ rest with
    | nil =>
      rw [List.append_assoc, hvr]
      simpa using takeWhile_all isSpace w2 hw2
    | cons a t =>
      rw [List.append_assoc, hvr]
      exact takeWhile_run isSpace w2 a t hw2 (hvs a (by rw [hvr]; rfl))
  have h3 : (v ++ rest).takeWhile notLineTerminator = v ∧
      (v ++ rest).dropWhile notLineTerminator = rest := by
    have hv' : ∀ a ∈ v, notLineTerminator a = true := by
      intro a ha
      simp [notLineTerminator, hv a ha]
    cases rest with
    | nil => simpa using takeWhile_all notLineTerminator v hv'
    | cons a t =>
      exact takeWhile_run notLineTerminator v a t hv'
        (by simp [notLineTerminator, hrest a rfl])
  unfold targetSplit
  rw [hpre, hdrop]
  simp only [if_true, h1.1, h1.2, h2.1, h2.2, h3.1, h3.2]

theorem isSpace_of_blank (a : Char) (h : a = ' ' ∨ a = '\t') : isSpace a = true := by
  rcases h with rfl | rfl <;> decide

/-- C5 (amended): on a content `TARGET w1 = w2 v` followed by a newline, where
`w1` and `w2` are runs of spaces or tabs and `v` is a non-empty text without line
terminator that does not begin with whitespace, the pattern
`^(TARGET\s*=\s*).*` with the template `$1` followed by `r`, a text without `$`
that does not begin with a decimal digit, yields `TARGET w1 = w2 r` and the
newline; `replace_in_file` on a file that can be opened returns true and leaves
the file holding that content. -/
theorem substitute_target_line (re : Regex) (hre : compile "^(TARGET\\s*=\\s*).*" = .ok re)
    (w1 w2 v r : Text)
    (hw1 : ∀ a ∈ w1, a = ' ' ∨ a = '\t') (hw2 : ∀ a ∈ w2, a = ' ' ∨ a = '\t')
    (hv : v ≠ []) (hvl : ∀ a ∈ v, isLineTerminator a = false)
    (hvs : ∀ a, v.head? = some a → isSpace a = false)
    (hr : '$' ∉ r) (hrd : ∀ d, r.head? = some d → isDigit d = false) :
    regex_replace ("TARGET".toList ++ w1 ++ ['='] ++ w2 ++ v ++ ['\n']) re ("$1".toList ++ r)
      = "TARGET".toList ++ w1 ++ ['='] ++ w2 ++ r ++ ['\n'] ∧
    ∀ (w : World) (path : String) (f : File),
      w.files.lookup path = some f → f.readable = true → f.writable = true →
      f.content = "TARGET".toList ++ w1 ++ ['='] ++ w2 ++ v ++ ['\n'] →
      (replace_in_file path re ("$1".toList ++ r) w).1 = true ∧
      (replace_in_file path re ("$1".toList ++ r) w).2.files.lookup path
        = some { f with content := "TARGET".toList ++ w1 ++ ['='] ++ w2 ++ r ++ ['\n'] } := by
  have hre' : re = targetRegex := by
    have := hre.symm.trans compile_target
    exact Compiled.ok.inj this
  subst hre'
  have hsplit := targetSplit_line w1 w2 v ['\n']
    (fun a ha => isSpace_of_blank a (hw1 a ha)) (fun a ha => isSpace_of_blank a (hw2 a ha)) hvl
    (by
      intro a ha
      cases v with
      | nil => exact absurd rfl hv
      | cons b t => exact hvs a (by simpa using ha))
    (by intro a ha; simp at ha; subst ha; decide)
  have hrr : regex_replace ("TARGET".toList ++ w1 ++ ['='] ++ w2 ++ v ++ ['\n']) targetRegex
      ("$1".toList ++ r) = "TARGET".toList ++ w1 ++ ['='] ++ w2 ++ r ++ ['\n'] := by
    have e : "TARGET".toList ++ w1 ++ ['='] ++ w2 ++ v ++ ['\n']
        = "TARGET".toList ++ w1 ++ '=' :: w2 ++ v ++ ['\n'] := by simp
    rw [e, regex_replace_target, hsplit]
    simp only
    have ef : "$1".toList ++ r = '$' :: '1' :: r := rfl
    rw [ef, format_group_one _ r hr hrd (show 1 < 2 by omega)]
    simp [MatchResults.sub, List.lookup]
  refine ⟨hrr, fun w path f hf hrd' hwr hc => ?_⟩
  rcases replace_in_file_cases path targetRegex ("$1".toList ++ r) w with
    ⟨hn, _⟩ | ⟨c, hread, hsame, e⟩ | ⟨g, hg, _, hgw, _, _⟩ | ⟨g, hg, _, _, _, e⟩
  · rw [read_of_lookup w path f hf hrd'] at hn
    exact absurd hn (by simp)
  · rw [read_of_lookup w path f hf hrd'] at hread
    have hcf : c = f.content := (Option.some.inj hread).symm
    rw [e]
    refine ⟨rfl, ?_⟩
    show w.files.lookup path = _
    rw [hf, ← hrr, ← hc, ← hcf, hsame, hcf]
  · rw [hf] at hg
    have : f = g := Option.some.inj hg
    subst this
    rw [hwr] at hgw
    exact absurd hgw (by simp)
  · rw [hf] at hg
    have : f = g := Option.some.inj hg
    subst this
    rw [e]
    refine ⟨rfl, ?_⟩
    simp only [lookup_store_self, hc, hrr]

/-- C5 (amended) on the scenario of the specification: `TARGET = old` with the
template `$1new`. -/
theorem substitute_target_line_witness :
    regex_replace ("TARGET".toList ++ " ".toList ++ ['='] ++ " ".toList ++ "old".toList ++ ['\n'])
        targetRegex ("$1".toList ++ "new".toList)
      = "TARGET".toList ++ " ".toList ++ ['='] ++ " ".toList ++ "new".toList ++ ['\n'] :=
  (substitute_target_line targetRegex compile_target " ".toList " ".toList "old".toList
    "new".toList (by decide) (by decide) (by decide) (by decide) (by decide) (by decide)
    (by decide)).1

/-- C5 as stated fails for a word that begins with a digit: with the template
`$1` followed by `2` the format reads `$12`, a group that does not exist, and
`"TARGET = old\n"` becomes `"\n"`, not `"TARGET = 2\n"`. -/
theorem substitute_target_digit_word :
    compile "^(TARGET\\s*=\\s*).*" = .ok targetRegex ∧
    '$' ∉ "2".toList ∧
    regex_replace "TARGET = old\n".toList targetRegex ("$1".toList ++ "2".toList)
      = "\n".toList ∧
    regex_replace "TARGET = old\n".toList targetRegex ("$1".toList ++ "2".toList)
      ≠ "TARGET = 2\n".toList := by
  decide

/-! ## Applying a transform twice -/

theorem head_dropWhile_not (p : Char → Bool) :
    ∀ (l : Text) (a : Char), (l.dropWhile p).head? = some a → p a = false := by
  intro l
  induction l with
  | nil => intro a h; simp at h
  | cons x t ih =>
    intro a h
    by_cases hx : p x = true
    · exact ih a (by simpa [List.dropWhile, hx] using h)
    · have hx' : p x = false := eq_false_of_ne_true hx
      simp only [List.dropWhile, hx', List.head?_cons, Option.some.injEq] at h
      rw [← h]
      exact hx'

theorem mem_takeWhile_imp (p : Char → Bool) :
    ∀ (l : Text) (a : Char), a ∈ l.takeWhile p → p a = true := by
  intro l
  induction l with
  | nil => intro a h; simp at h
  | cons x t ih =>
    intro a h
    by_cases hx : p x = true
    · simp only [List.takeWhile, hx, List.mem_cons] at h
      rcases h with rfl | h
      · exact hx
      · exact ih a h
    · simp [List.takeWhile, hx] at h

/-- What a match of the pattern of step 1 looks like. -/
theorem targetSplit_shape (c g v rest : Text) (h : targetSplit c = some (g, v, rest)) :
    ∃ ws1 ws2, g = "TARGET".toList ++ ws1 ++ '=' :: ws2 ∧
      (∀ a ∈ ws1, isSpace a = true) ∧ (∀ a ∈ ws2, isSpace a = true) ∧
      (∀ a, rest.head? = some a → isLineTerminator a = true) := by
  unfold targetSplit at h
  split at h
  · split at h
    · simp at h
    · rename_i a c3 hd
      split at h
      · simp only [Option.some.injEq, Prod.mk.injEq] at h
        obtain ⟨hg, _, hrest⟩ := h
        refine ⟨_, _, hg.symm, mem_takeWhile_imp isSpace _, mem_takeWhile_imp isSpace _, ?_⟩
        intro b hb
        rw [← hrest] at hb
        have := head_dropWhile_not notLineTerminator _ b hb
        simpa [notLineTerminator] using this
      · simp at h
  · simp at h

/-- The substitution of step 1, applied to its own output, changes nothing. -/
theorem target_idempotent (c : Text) :
    regex_replace (regex_replace c targetRegex "$1nocursor".toList) targetRegex
        "$1nocursor".toList
      = regex_replace c targetRegex "$1nocursor".toList := by
  have hfmt : ∀ m : MatchResults, 1 < m.size →
      format m "$1nocursor".toList = m.sub 1 ++ "nocursor".toList := fun m hm =>
    format_group_one m "nocursor".toList (by decide) (by decide) hm
  cases hs : targetSplit c with
  | none =>
    have h1 : regex_replace c targetRegex "$1nocursor".toList = c := by
      rw [regex_replace_target, hs]
    rw [h1, h1]
  | some gvr =>
    obtain ⟨g, v, rest⟩ := gvr
    obtain ⟨ws1, ws2, hg, hws1, hws2, hrest⟩ := targetSplit_shape c g v rest hs
    have h1 : regex_replace c targetRegex "$1nocursor".toList
        = g ++ "nocursor".toList ++ rest := by
      rw [regex_replace_target, hs]
      simp only
      rw [hfmt _ (show 1 < 2 by omega)]
      simp [MatchResults.sub, List.lookup]
    have hs2 : targetSplit (g ++ "nocursor".toList ++ rest)
        = some (g, "nocursor".toList, rest) := by
      rw [hg]
      exact targetSplit_line ws1 ws2 "nocursor".toList rest hws1 hws2 (by decide)
        (by intro a ha; simp at ha; subst ha; decide) hrest
    rw [h1, regex_replace_target, hs2]
    simp only
    rw [hfmt _ (show 1 < 2 by omega)]
    simp [MatchResults.sub, List.lookup]

theorem regex_replace_of_search_none (c : Text) (re : Regex) (fmt : Text)
    (h : regex_search re ⟨false, false, false⟩ c = none) : regex_replace c re fmt = c := by
  simp [regex_replace, h]

/-- A substitution either finds no match and returns the content, or its output
contains the formatted template of the first match. -/
theorem regex_replace_cases (c : Text) (re : Regex) (fmt : Text) :
    (regex_search re ⟨false, false, false⟩ c = none ∧ regex_replace c re fmt = c) ∨
    ∃ off y, regex_search re ⟨false, false, false⟩ c = some (off, y) ∧
      format (mkResults re [] c off y) fmt <:+: regex_replace c re fmt := by
  cases h : regex_search re ⟨false, false, false⟩ c with
  | none =>
    left
    exact ⟨rfl, by simp [regex_replace, h]⟩
  | some r =>
    right
    obtain ⟨off, y⟩ := r
    refine ⟨off, y, rfl, ?_⟩
    simp only [regex_replace, h]
    exact ⟨c.take off, replaceLoop re fmt (2 * c.length + 2) false (y.consumed == 0) y.rest,
      by simp⟩

/-- A guarded substitution whose formatted template always contains the marker,
applied to its own output, changes nothing. -/
theorem guardedSubstitute_idempotent (marker : Text) (re : Regex) (fmt : Text)
    (hfmt : ∀ m : MatchResults, m.size = re.markCount + 1 → marker <:+: format m fmt)
    (c : Text) :
    guardedSubstitute marker re fmt (guardedSubstitute marker re fmt c)
      = guardedSubstitute marker re fmt c := by
  unfold guardedSubstitute
  cases hc : (find c marker).isNone with
  | false => simp [hc]
  | true =>
    simp only [if_true]
    rcases regex_replace_cases c re fmt with ⟨_, h⟩ | ⟨off, y, _, h⟩
    · rw [h, hc]
      simp [h]
    · have hin : marker <:+: regex_replace c re fmt :=
        (hfmt (mkResults re [] c off y) rfl).trans h
      have : (find (regex_replace c re fmt) marker).isNone = false := by
        cases hn : (find (regex_replace c re fmt) marker).isNone with
        | false => rfl
        | true => exact absurd hin ((find_isNone_iff _ _).mp hn)
      simp [this]

theorem appendIfMissing_idempotent (s c : Text) :
    (Transform.appendIfMissing s).apply ((Transform.appendIfMissing s).apply c)
      = (Transform.appendIfMissing s).apply c := by
  unfold Transform.apply
  cases hc : (find c s).isSome with
  | true => simp [hc]
  | false =>
    have hin : s <:+: c ++ ('\n' :: s ++ ['\n']) := ⟨c ++ ['\n'], ['\n'], by simp⟩
    have : (find (c ++ ('\n' :: s ++ ['\n'])) s).isSome = true := (find_isSome_iff _ _).mpr hin
    simp only [hc, Bool.false_eq_true, if_false, this, if_true]

/-- C4 (amended): applying a transform to its own output changes nothing for
every append-if-missing transform, for a pattern substitution whenever the
pattern has no match in the substituted content, for the substitution of step 1
(`^(TARGET\s*=\s*).*` with `$1nocursor`), and for the guarded substitutions of
steps 5 and 7 of `main`; each on every content. -/
theorem apply_twice (c : Text) :
    (∀ s, (Transform.appendIfMissing s).apply ((Transform.appendIfMissing s).apply c)
      = (Transform.appendIfMissing s).apply c) ∧
    (∀ re fmt, NoMatch re ((Transform.substitute re fmt).apply c) →
      (Transform.substitute re fmt).apply ((Transform.substitute re fmt).apply c)
        = (Transform.substitute re fmt).apply c) ∧
    (Transform.substitute targetRegex "$1nocursor".toList).apply
        ((Transform.substitute targetRegex "$1nocursor".toList).apply c)
      = (Transform.substitute targetRegex "$1nocursor".toList).apply c ∧
    guardedSubstitute "hide_cursor();".toList exitsetupRegex
        "mch_exitsetup();\n    hide_cursor();".toList
        (guardedSubstitute "hide_cursor();".toList exitsetupRegex
          "mch_exitsetup();\n    hide_cursor();".toList c)
      = guardedSubstitute "hide_cursor();".toList exitsetupRegex
          "mch_exitsetup();\n    hide_cursor();".toList c ∧
    guardedSubstitute "//showmode();".toList showmodeRegex "$1//showmode();".toList
        (guardedSubstitute "//showmode();".toList showmodeRegex "$1//showmode();".toList c)
      = guardedSubstitute "//showmode();".toList showmodeRegex "$1//showmode();".toList c := by
  refine ⟨fun s => appendIfMissing_idempotent s c, fun re fmt h => ?_, target_idempotent c, ?_, ?_⟩
  · exact regex_replace_of_search_none _ re fmt (regex_search_none_of_noMatch re _ h)
  · apply guardedSubstitute_idempotent
    intro m _
    rw [format_plain m _ (by decide)]
    exact ⟨"mch_exitsetup();\n    ".toList, [], by decide⟩
  · apply guardedSubstitute_idempotent
    intro m hm
    have h2 : 1 < m.size := by
      rw [hm]
      decide
    have e : "$1//showmode();".toList = '$' :: '1' :: "//showmode();".toList := rfl
    rw [e, format_group_one m _ (by decide) (by decide) h2]
    exact ⟨m.sub 1, [], by simp⟩

/-- C4 (amended) for the pattern `a`, the template `b` and the content `xay`. -/
theorem apply_twice_witness :
    (Transform.substitute (.chr 'a') "b".toList).apply
        ((Transform.substitute (.chr 'a') "b".toList).apply "xay".toList)
      = (Transform.substitute (.chr 'a') "b".toList).apply "xay".toList :=
  (apply_twice "xay".toList).2.1 (.chr 'a') "b".toList (by unfold NoMatch; decide)

/-- C4 as stated fails: the pattern `a` with the template `aa` turns `a` into
`aa` and `aa` into `aaaa`. -/
theorem substitute_not_idempotent :
    compile "a" = .ok (.chr 'a') ∧
    (Transform.substitute (.chr 'a') "aa".toList).apply "a".toList = "aa".toList ∧
    (Transform.substitute (.chr 'a') "aa".toList).apply
        ((Transform.substitute (.chr 'a') "aa".toList).apply "a".toList) = "aaaa".toList ∧
    (Transform.substitute (.chr 'a') "aa".toList).apply
        ((Transform.substitute (.chr 'a') "aa".toList).apply "a".toList)
      ≠ (Transform.substitute (.chr 'a') "aa".toList).apply "a".toList := by
  decide

/-! ## Running `main` twice -/

/-- The function `replace_in_file` seen from the files: its result and its target
follow `replaceFile`, every other file is untouched. -/
theorem replace_in_file_lookup (path : String) (re : Regex) (fmt : Text) (w : World) :
    (replace_in_file path re fmt w).1 = (replaceFile re fmt (w.files.lookup path)).1 ∧
    (replace_in_file path re fmt w).2.files.lookup path
      = (replaceFile re fmt (w.files.lookup path)).2 ∧
    ∀ q, q ≠ path → (replace_in_file path re fmt w).2.files.lookup q = w.files.lookup q := by
  rcases replace_in_file_cases path re fmt w with
    ⟨hn, e⟩ | ⟨c, hread, hsame, e⟩ | ⟨f, hf, hr, hw, hne, e⟩ | ⟨f, hf, hr, hw, hne, e⟩
  · rw [e]
    refine ⟨?_, ?_, fun q _ => rfl⟩
    · cases hl : w.files.lookup path with
      | none => rfl
      | some f =>
        have : f.readable = false := by
          cases hr : f.readable with
          | false => rfl
          | true => simp [World.read, hl, hr] at hn
        simp [replaceFile, this]
    · show w.files.lookup path = _
      cases hl : w.files.lookup path with
      | none => rfl
      | some f =>
        have : f.readable = false := by
          cases hr : f.readable with
          | false => rfl
          | true => simp [World.read, hl, hr] at hn
        simp [replaceFile, this]
  · rw [e]
    cases hl : w.files.lookup path with
    | none => simp [World.read, hl] at hread
    | some f =>
      cases hr : f.readable with
      | false => simp [World.read, hl, hr] at hread
      | true =>
        have hc : f.content = c := by simpa [World.read, hl, hr] using hread
        refine ⟨?_, ?_, fun q _ => rfl⟩
        · simp [replaceFile, hr, hc, hsame]
        · show w.files.lookup path = _
          simp [replaceFile, hr, hc, hsame, hl]
  · rw [e, hf]
    refine ⟨?_, ?_, fun q _ => rfl⟩
    · simp [replaceFile, hr, hw, hne]
    · show w.files.lookup path = _
      simp [replaceFile, hr, hw, hne, hf]
  · rw [e, hf]
    refine ⟨?_, ?_, fun q hq => ?_⟩
    · simp [replaceFile, hr, hw, hne]
    · simp [replaceFile, hr, hw, hne, lookup_store_self]
    · simp [lookup_store_ne path q _ _ hq]

theorem substitute_threw (path pat fmt : String) (w : World)
    (h : compile pat = .regex_error) : substitute path pat fmt w = .threw w := by
  simp [substitute, withRegex, h]

/-- A run of the plan: steps 1 and 2, then the pattern of step 3 throws. -/
theorem runSteps_mainPlan (w0 : World) :
    runSteps mainPlan w0 =
      match replace_in_file "src/Makefile" targetRegex targetTemplate w0 with
      | (false, a) => .failed a
      | (true, a) =>
        match replace_in_file "src/version.c" (versionRegex "VIM_VERSION_MEDIUM")
            mediumTemplate a with
        | (false, b) => .failed b
        | (true, b) =>
          match replace_in_file "src/version.c" (versionRegex "VIM_VERSION_LONG")
              longTemplate b with
          | (false, c) => .failed c
          | (true, c) => .threw c := by
  have e1 : ∀ w, substitute "src/Makefile" "^(TARGET\\s*=\\s*).*" "$1nocursor" w =
      match replace_in_file "src/Makefile" targetRegex targetTemplate w with
      | (true, w1) => .ok w1
      | (false, w1) => .failed w1 :=
    fun w => substitute_of_compile _ _ _ _ w compile_target
  have e2 : ∀ w, substitute "src/version.c" "#define\\s+VIM_VERSION_MEDIUM\\s+\\\".*\\\""
      "#define VIM_VERSION_MEDIUM  \"NoCursor\"" w =
      match replace_in_file "src/version.c" (versionRegex "VIM_VERSION_MEDIUM")
          mediumTemplate w with
      | (true, w1) => .ok w1
      | (false, w1) => .failed w1 :=
    fun w => substitute_of_compile _ _ _ _ w compile_version_medium
  have e3 : ∀ w, substitute "src/version.c" "#define\\s+VIM_VERSION_LONG\\s+\\\".*\\\""
      "#define VIM_VERSION_LONG    \"Vim-NoCursor v0.1 Minimal\"" w =
      match replace_in_file "src/version.c" (versionRegex "VIM_VERSION_LONG")
          longTemplate w with
      | (true, w1) => .ok w1
      | (false, w1) => .failed w1 :=
    fun w => substitute_of_compile _ _ _ _ w compile_version_long
  simp only [mainPlan_eq, runSteps]
  rw [e1]
  rcases replace_in_file "src/Makefile" targetRegex targetTemplate w0 with ⟨b0, a⟩
  cases b0 with
  | false => rfl
  | true =>
    simp only
    rw [e2]
    rcases replace_in_file "src/version.c" (versionRegex "VIM_VERSION_MEDIUM")
        mediumTemplate a with ⟨b1, b⟩
    cases b1 with
    | false => rfl
    | true =>
      simp only
      rw [e3]
      rcases replace_in_file "src/version.c" (versionRegex "VIM_VERSION_LONG")
          longTemplate b with ⟨b2, c⟩
      cases b2 with
      | false => rfl
      | true =>
        simp only
        rw [substitute_threw _ _ _ c compile_do_intro]

/-- A run of `main` seen from the files: the exit status, `src/Makefile` and
`src/version.c` follow `mainEffect`, every other file is untouched. -/
theorem main_effect (w : World) :
    (main w).1
      = (mainEffect (w.files.lookup "src/Makefile") (w.files.lookup "src/version.c")).1 ∧
    (main w).2.files.lookup "src/Makefile"
      = (mainEffect (w.files.lookup "src/Makefile") (w.files.lookup "src/version.c")).2.1 ∧
    (main w).2.files.lookup "src/version.c"
      = (mainEffect (w.files.lookup "src/Makefile") (w.files.lookup "src/version.c")).2.2 ∧
    ∀ q, q ≠ "src/Makefile" → q ≠ "src/version.c" →
      (main w).2.files.lookup q = w.files.lookup q := by
  have hmv : ("src/version.c" : String) ≠ "src/Makefile" := by decide
  have hvm : ("src/Makefile" : String) ≠ "src/version.c" := by decide
  unfold main mainEffect
  rw [runSteps_mainPlan]
  obtain ⟨h0b, h0t, h0f⟩ := replace_in_file_lookup "src/Makefile" targetRegex
    targetTemplate (started w)
  have hs : (started w).files = w.files := rfl
  rw [hs] at h0b h0t h0f
  rcases hr0 : replace_in_file "src/Makefile" targetRegex targetTemplate (started w)
    with ⟨b0, a⟩
  rw [hr0] at h0b h0t h0f
  rcases hf0 : replaceFile targetRegex targetTemplate (w.files.lookup "src/Makefile")
    with ⟨b0', m1⟩
  rw [hf0] at h0b h0t
  simp only at h0b h0t h0f
  subst h0b
  cases b0 with
  | false =>
    simp only
    exact ⟨trivial, h0t, h0f _ hmv, fun q hq _ => h0f q hq⟩
  | true =>
    simp only
    obtain ⟨h1b, h1t, h1f⟩ := replace_in_file_lookup "src/version.c"
      (versionRegex "VIM_VERSION_MEDIUM") mediumTemplate a
    rw [h0f _ hmv] at h1b h1t
    rcases hr1 : replace_in_file "src/version.c" (versionRegex "VIM_VERSION_MEDIUM") mediumTemplate a with ⟨b1, b⟩
    rw [hr1] at h1b h1t h1f
    rcases hf1 : replaceFile (versionRegex "VIM_VERSION_MEDIUM") mediumTemplate (w.files.lookup "src/version.c")
      with ⟨b1', v1⟩
    rw [hf1] at h1b h1t
    simp only at h1b h1t h1f
    subst h1b
    cases b1 with
    | false =>
      simp only
      exact ⟨trivial, (h1f _ hvm).trans h0t, h1t,
        fun q hq hq' => (h1f q hq').trans (h0f q hq)⟩
    | true =>
      simp only
      obtain ⟨h2b, h2t, h2f⟩ := replace_in_file_lookup "src/version.c"
        (versionRegex "VIM_VERSION_LONG") longTemplate b
      rw [h1t] at h2b h2t
      rcases hr2 : replace_in_file "src/version.c" (versionRegex "VIM_VERSION_LONG") longTemplate b with ⟨b2, c⟩
      rw [hr2] at h2b h2t h2f
      rcases hf2 : replaceFile (versionRegex "VIM_VERSION_LONG") longTemplate v1 with ⟨b2', v2⟩
      rw [hf2] at h2b h2t
      simp only at h2b h2t h2f
      subst h2b
      cases b2 with
      | false =>
        simp only
        exact ⟨trivial, (h2f _ hvm).trans ((h1f _ hvm).trans h0t), h2t,
          fun q hq hq' => (h2f q hq').trans ((h1f q hq').trans (h0f q hq))⟩
      | true =>
        simp only
        exact ⟨trivial, (h2f _ hvm).trans ((h1f _ hvm).trans h0t), h2t,
          fun q hq hq' => (h2f q hq').trans ((h1f q hq').trans (h0f q hq))⟩

theorem mainEffect_eq (m v : Option File) :
    mainEffect m v =
      match replaceFile targetRegex targetTemplate m with
      | (false, m1) => (.returned 1, m1, v)
      | (true, m1) => ((versionEffect v).1, m1, (versionEffect v).2) := by
  unfold mainEffect versionEffect
  rcases replaceFile targetRegex targetTemplate m with ⟨b0, m1⟩
  cases b0 with
  | false => rfl
  | true =>
    simp only
    rcases replaceFile (versionRegex "VIM_VERSION_MEDIUM") mediumTemplate v with ⟨b1, v1⟩
    cases b1 with
    | false => rfl
    | true =>
      simp only
      rcases replaceFile (versionRegex "VIM_VERSION_LONG") longTemplate v1 with ⟨b2, v2⟩
      cases b2 <;> rfl

theorem replaceFile_false (re : Regex) (fmt : Text) (o o1 : Option File)
    (h : replaceFile re fmt o = (false, o1)) : o1 = o := by
  unfold replaceFile at h
  split at h
  · simp at h
    exact h.symm
  · split at h
    · split at h
      · simp at h
      · split at h
        · simp at h
        · simp at h
          exact h.symm
    · simp at h
      exact h.symm

/-- On a file that can be read and written `replace_in_file` succeeds, and the
file can still be read and written. -/
theorem replaceFile_open (re : Regex) (fmt : Text) (f : File)
    (hr : f.readable = true) (hw : f.writable = true) :
    ∃ f1, replaceFile re fmt (some f) = (true, some f1) ∧
      f1.readable = true ∧ f1.writable = true := by
  unfold replaceFile
  by_cases hc : regex_replace f.content re fmt = f.content
  · exact ⟨f, by simp [hr, hc], hr, hw⟩
  · exact ⟨{ f with content := regex_replace f.content re fmt }, by simp [hr, hw, hc], hr, hw⟩

/-- A file that cannot be written is never changed. -/
theorem replaceFile_readonly (re : Regex) (fmt : Text) (f : File) (hw : f.writable = false) :
    (replaceFile re fmt (some f)).2 = some f := by
  cases hr : f.readable <;> by_cases hc : regex_replace f.content re fmt = f.content <;>
    simp [replaceFile, hr, hc, hw]

/-- The exit status of the part of a run that concerns `src/version.c` is the
same on the file that a first run leaves. -/
theorem versionEffect_twice (v : Option File) :
    (versionEffect (versionEffect v).2).1 = (versionEffect v).1 := by
  cases v with
  | none => rfl
  | some f =>
    cases hw : f.writable with
    | false =>
      have hB := replaceFile_readonly (versionRegex "VIM_VERSION_MEDIUM") mediumTemplate f hw
      have hC := replaceFile_readonly (versionRegex "VIM_VERSION_LONG") longTemplate f hw
      have hsame : (versionEffect (some f)).2 = some f := by
        unfold versionEffect
        rcases hb : replaceFile (versionRegex "VIM_VERSION_MEDIUM") mediumTemplate (some f) with ⟨b1, v1⟩
        rw [hb] at hB
        simp only at hB
        subst hB
        cases b1 with
        | false => rfl
        | true =>
          simp only
          rcases hc : replaceFile (versionRegex "VIM_VERSION_LONG") longTemplate (some f)
            with ⟨b2, v2⟩
          rw [hc] at hC
          simp only at hC
          subst hC
          cases b2 <;> rfl
      rw [hsame]
    | true =>
      cases hr : f.readable with
      | false =>
        have : versionEffect (some f) = (.returned 1, some f) := by
          simp [versionEffect, replaceFile, hr]
        rw [this]
        simp only
        rw [this]
      | true =>
        have hopen : ∀ g : File, g.readable = true → g.writable = true →
            ∃ g2, versionEffect (some g) = (.terminated, some g2) ∧
              g2.readable = true ∧ g2.writable = true := by
          intro g hgr hgw
          obtain ⟨g1, h1, h1r, h1w⟩ := replaceFile_open (versionRegex "VIM_VERSION_MEDIUM") mediumTemplate g hgr hgw
          obtain ⟨g2, h2, h2r, h2w⟩ := replaceFile_open (versionRegex "VIM_VERSION_LONG") longTemplate g1 h1r h1w
          exact ⟨g2, by simp only [versionEffect, h1, h2], h2r, h2w⟩
        obtain ⟨g2, h1, h2r, h2w⟩ := hopen f hr hw
        obtain ⟨g3, h2, _, _⟩ := hopen g2 h2r h2w
        rw [h1]
        simp only
        rw [h2]

/-- The substitution of step 1 succeeds a second time without changing the file
that its first success left. -/
theorem replaceFile_target_twice (m m1 : Option File)
    (h : replaceFile targetRegex targetTemplate m = (true, m1)) :
    replaceFile targetRegex targetTemplate m1 = (true, m1) := by
  unfold replaceFile at h
  split at h
  · simp at h
  · rename_i f
    split at h
    · rename_i hr
      split at h
      · rename_i hc
        simp only [Prod.mk.injEq, true_and] at h
        subst h
        simp [replaceFile, hr, hc]
      · split at h
        · simp only [Prod.mk.injEq, true_and] at h
          subst h
          have hi : regex_replace (regex_replace f.content targetRegex targetTemplate)
              targetRegex targetTemplate = regex_replace f.content targetRegex targetTemplate :=
            target_idempotent f.content
          simp [replaceFile, hr, hi]
        · simp at h
    · simp at h

theorem mainEffect_twice (m v : Option File) :
    (mainEffect (mainEffect m v).2.1 (mainEffect m v).2.2).1 = (mainEffect m v).1 ∧
    (mainEffect (mainEffect m v).2.1 (mainEffect m v).2.2).2.1 = (mainEffect m v).2.1 := by
  rcases hA : replaceFile targetRegex targetTemplate m with ⟨bA, m1⟩
  cases bA with
  | false =>
    have hm : m1 = m := replaceFile_false _ _ _ _ hA
    subst hm
    have e : mainEffect m1 v = (.returned 1, m1, v) := by
      rw [mainEffect_eq, hA]
    rw [e]
    simp only
    rw [e]
    exact ⟨rfl, rfl⟩
  | true =>
    have e : mainEffect m v = ((versionEffect v).1, m1, (versionEffect v).2) := by
      rw [mainEffect_eq, hA]
    have e2 : mainEffect m1 (versionEffect v).2
        = ((versionEffect (versionEffect v).2).1, m1, (versionEffect (versionEffect v).2).2) := by
      rw [mainEffect_eq, replaceFile_target_twice m m1 hA]
    rw [e]
    simp only
    rw [e2]
    exact ⟨versionEffect_twice v, rfl⟩

/-- C10 (amended): a second run of `main` ends as the first run did, and leaves
every file other than `src/version.c` exactly as the first run left it. -/
theorem main_twice (w : World) :
    (main (main w).2).1 = (main w).1 ∧
    ∀ q, q ≠ "src/version.c" →
      (main (main w).2).2.files.lookup q = (main w).2.files.lookup q := by
  obtain ⟨h1e, h1m, h1v, h1f⟩ := main_effect w
  obtain ⟨h2e, h2m, _, h2f⟩ := main_effect (main w).2
  rw [h1m, h1v] at h2e h2m
  obtain ⟨he, hm⟩ := mainEffect_twice (w.files.lookup "src/Makefile")
    (w.files.lookup "src/version.c")
  refine ⟨by rw [h2e, he, h1e], fun q hq => ?_⟩
  by_cases hqm : q = "src/Makefile"
  · subst hqm
    rw [h2m, hm, h1m]
  · exact h2f q hqm hq

/-- C10 as stated fails: on this `src/version.c` the first run joins two lines
into one, on which the first substitution of step 2 then matches from the first
`#define` to the last quote; the second run changes the file again. -/
theorem main_twice_changes_version :
    (main ⟨[("src/Makefile", ⟨"TARGET = vim\n".toList, true, true⟩),
        ("src/version.c",
          ⟨"#define VIM_VERSION_MEDIUM \"a\" #define VIM_VERSION_MEDIUM\n\"x\"".toList,
            true, true⟩)], []⟩).2.files.lookup "src/version.c"
      = some ⟨("#define VIM_VERSION_MEDIUM  \"NoCursor\" " ++
          "#define VIM_VERSION_MEDIUM  \"NoCursor\"").toList, true, true⟩ ∧
    (main (main ⟨[("src/Makefile", ⟨"TARGET = vim\n".toList, true, true⟩),
        ("src/version.c",
          ⟨"#define VIM_VERSION_MEDIUM \"a\" #define VIM_VERSION_MEDIUM\n\"x\"".toList,
            true, true⟩)], []⟩).2).2.files.lookup "src/version.c"
      = some ⟨"#define VIM_VERSION_MEDIUM  \"NoCursor\"".toList, true, true⟩ ∧
    (main (main ⟨[("src/Makefile", ⟨"TARGET = vim\n".toList, true, true⟩),
        ("src/version.c",
          ⟨"#define VIM_VERSION_MEDIUM \"a\" #define VIM_VERSION_MEDIUM\n\"x\"".toList,
            true, true⟩)], []⟩).2).2.files
      ≠ (main ⟨[("src/Makefile", ⟨"TARGET = vim\n".toList, true, true⟩),
        ("src/version.c",
          ⟨"#define VIM_VERSION_MEDIUM \"a\" #define VIM_VERSION_MEDIUM\n\"x\"".toList,
            true, true⟩)], []⟩).2.files := by
  decide

/-! ## The matcher only moves forward, and the fuel is enough -/

theorem Reach.refl (x : MState) : Reach x x :=
  ⟨[], by simp, by simp⟩

theorem Reach.trans {x y z : MState} (h1 : Reach x y) (h2 : Reach y z) : Reach x z := by
  obtain ⟨l1, e1, c1⟩ := h1
  obtain ⟨l2, e2, c2⟩ := h2
  exact ⟨l1 ++ l2, by rw [e1, e2, List.append_assoc], by rw [c2, c1, List.length_append]; omega⟩

theorem Reach.length_le {x y : MState} (h : Reach x y) : y.rest.length ≤ x.rest.length := by
  obtain ⟨l, e, _⟩ := h
  rw [e]
  simp

theorem Reach.length_lt {x y : MState} (h : Reach x y) (hne : y.consumed ≠ x.consumed) :
    y.rest.length < x.rest.length := by
  obtain ⟨l, e, c⟩ := h
  have hl : l.length ≠ 0 := by
    intro h0
    exact hne (by rw [c, h0]; rfl)
  rw [e]
  simp
  omega

theorem Reach.of_clearCaps {gs : List Nat} {x y : MState} (h : Reach (clearCaps gs x) y) :
    Reach x y := h

/-- A continuation only matters on the states ahead: the repetition. -/
theorem starLoop_congr (step : MState → Cont → Option MState) (gs : List Nat)
    (hstep : ∀ x c c', (∀ y, Reach x y → c y = c' y) → step x c = step x c') :
    ∀ (n : Nat) (x : MState) (c c' : Cont), (∀ y, Reach x y → c y = c' y) →
      starLoop step gs n x c = starLoop step gs n x c' := by
  intro n
  induction n with
  | zero => intro x c c' h; exact h x (Reach.refl x)
  | succ n ih =>
    intro x c c' h
    rw [starLoop, starLoop]
    have hk : step (clearCaps gs x)
          (fun y => if y.consumed = x.consumed then none else starLoop step gs n y c)
        = step (clearCaps gs x)
          (fun y => if y.consumed = x.consumed then none else starLoop step gs n y c') := by
      apply hstep
      intro y hy
      by_cases hc : y.consumed = x.consumed
      · simp [hc]
      · simp only [hc, if_false]
        exact ih y c c' (fun y' hy' => h y' (Reach.trans (Reach.of_clearCaps hy) hy'))
    rw [hk, h x (Reach.refl x)]

/-- A continuation only matters on the states ahead. -/
theorem run_congr (r : Regex) :
    ∀ (b : Bool) (x : MState) (c c' : Cont), (∀ y, Reach x y → c y = c' y) →
      r.run b x c = r.run b x c' := by
  induction r with
  | eps => intro b x c c' h; exact h x (Reach.refl x)
  | chr a =>
    intro b x c c' h
    simp only [Regex.run]
    cases hx : x.rest with
    | nil => rfl
    | cons e t =>
      simp only
      split
      · exact h _ ⟨[e], by simp [hx], by simp⟩
      · rfl
  | set s =>
    intro b x c c' h
    simp only [Regex.run]
    cases hx : x.rest with
    | nil => rfl
    | cons e t =>
      simp only
      split
      · exact h _ ⟨[e], by simp [hx], by simp⟩
      · rfl
  | bol =>
    intro b x c c' h
    simp only [Regex.run]
    split
    · exact h x (Reach.refl x)
    · rfl
  | seq p q ihp ihq =>
    intro b x c c' h
    simp only [Regex.run]
    apply ihp
    intro y hy
    apply ihq
    intro z hz
    exact h z (Reach.trans hy hz)
  | alt p q ihp ihq =>
    intro b x c c' h
    simp only [Regex.run]
    rw [ihp b x c c' h, ihq b x c c' h]
  | star p ih =>
    intro b x c c' h
    simp only [Regex.run]
    exact starLoop_congr _ _ (ih b) _ x c c' h
  | plus p ih =>
    intro b x c c' h
    simp only [Regex.run]
    apply ih
    intro y hy
    exact starLoop_congr _ _ (ih b) _ y c c'
      (fun z hz => h z (Reach.trans (Reach.of_clearCaps hy) hz))
  | group i p ih =>
    intro b x c c' h
    simp only [Regex.run]
    apply ih
    intro y hy
    exact h _ hy

/-- The repetition does not depend on its fuel once the fuel exceeds the length
of the input that is left: the fuel never runs out. -/
theorem starLoop_fuel (step : MState → Cont → Option MState) (gs : List Nat)
    (hstep : ∀ x c c', (∀ y, Reach x y → c y = c' y) → step x c = step x c') (c : Cont) :
    ∀ (n m : Nat) (x : MState), x.rest.length < n → x.rest.length < m →
      starLoop step gs n x c = starLoop step gs m x c := by
  intro n
  induction n with
  | zero => intro m x hn; omega
  | succ n ih =>
    intro m x hn hm
    cases m with
    | zero => omega
    | succ m =>
      rw [starLoop, starLoop]
      have hk : step (clearCaps gs x)
            (fun y => if y.consumed = x.consumed then none else starLoop step gs n y c)
          = step (clearCaps gs x)
            (fun y => if y.consumed = x.consumed then none else starLoop step gs m y c) := by
        apply hstep
        intro y hy
        by_cases hc : y.consumed = x.consumed
        · simp [hc]
        · simp only [hc, if_false]
          have hlt := Reach.length_lt (Reach.of_clearCaps hy) hc
          exact ih m y (by omega) (by omega)
      rw [hk]

/-- The repetition of any pattern, with any sufficient fuel. -/
theorem run_star_fuel (p : Regex) (b : Bool) (x : MState) (c : Cont) (n : Nat)
    (hn : x.rest.length < n) :
    (Regex.star p).run b x c = starLoop (p.run b) p.groups n x c :=
  starLoop_fuel _ _ (run_congr p b) c _ n x (Nat.lt_succ_self _) hn

/-- A successful repetition ends in a state ahead that the continuation accepts. -/
theorem starLoop_reaches (step : MState → Cont → Option MState) (gs : List Nat)
    (hstep : ∀ x c z, step x c = some z → ∃ y, c y = some z ∧ Reach x y) (c : Cont) :
    ∀ (n : Nat) (x z : MState), starLoop step gs n x c = some z →
      ∃ y, c y = some z ∧ Reach x y := by
  intro n
  induction n with
  | zero => intro x z h; exact ⟨x, h, Reach.refl x⟩
  | succ n ih =>
    intro x z h
    rw [starLoop] at h
    split at h
    · rename_i z' hz
      simp only [Option.some.injEq] at h
      subst h
      obtain ⟨y, hy, hr⟩ := hstep _ _ _ hz
      split at hy
      · simp at hy
      · obtain ⟨y2, hy2, hr2⟩ := ih y z' hy
        exact ⟨y2, hy2, Reach.trans (Reach.of_clearCaps hr) hr2⟩
    · exact ⟨x, h, Reach.refl x⟩

/-- A successful match ends in a state ahead that the continuation accepts: the
matcher only moves forward in its input. -/
theorem run_reaches (r : Regex) :
    ∀ (b : Bool) (x : MState) (c : Cont) (z : MState), r.run b x c = some z →
      ∃ y, c y = some z ∧ Reach x y := by
  induction r with
  | eps => intro b x c z h; exact ⟨x, h, Reach.refl x⟩
  | chr a =>
    intro b x c z h
    simp only [Regex.run] at h
    cases hx : x.rest with
    | nil => simp [hx] at h
    | cons e t =>
      simp only [hx] at h
      split at h
      · exact ⟨_, h, ⟨[e], by simp [hx], by simp⟩⟩
      · simp at h
  | set s =>
    intro b x c z h
    simp only [Regex.run] at h
    cases hx : x.rest with
    | nil => simp [hx] at h
    | cons e t =>
      simp only [hx] at h
      split at h
      · exact ⟨_, h, ⟨[e], by simp [hx], by simp⟩⟩
      · simp at h
  | bol =>
    intro b x c z h
    simp only [Regex.run] at h
    split at h
    · exact ⟨x, h, Reach.refl x⟩
    · simp at h
  | seq p q ihp ihq =>
    intro b x c z h
    simp only [Regex.run] at h
    obtain ⟨y, hy, hr⟩ := ihp b x _ z h
    obtain ⟨y2, hy2, hr2⟩ := ihq b y c z hy
    exact ⟨y2, hy2, Reach.trans hr hr2⟩
  | alt p q ihp ihq =>
    intro b x c z h
    simp only [Regex.run] at h
    split at h
    · rename_i z' hz
      simp only [Option.some.injEq] at h
      subst h
      exact ihp b x c z' hz
    · exact ihq b x c z h
  | star p ih =>
    intro b x c z h
    simp only [Regex.run] at h
    exact starLoop_reaches _ _ (ih b) c _ x z h
  | plus p ih =>
    intro b x c z h
    simp only [Regex.run] at h
    obtain ⟨y, hy, hr⟩ := ih b _ _ z h
    obtain ⟨y2, hy2, hr2⟩ := starLoop_reaches _ _ (ih b) c _ y z hy
    exact ⟨y2, hy2, Reach.trans (Reach.of_clearCaps hr) hr2⟩
  | group i p ih =>
    intro b x c z h
    simp only [Regex.run] at h
    obtain ⟨y, hy, hr⟩ := ih b x _ z h
    exact ⟨_, hy, hr⟩

/-- A match attempt on `s` consumes a prefix of `s` and leaves the rest. -/
theorem matchHere_rest (re : Regex) (b nn : Bool) (s : Text) (y : MState)
    (h : matchHere re b nn s = some y) :
    s = s.take y.consumed ++ y.rest ∧ y.consumed + y.rest.length = s.length ∧
      (nn = true → y.consumed ≠ 0) := by
  unfold matchHere at h
  obtain ⟨y', hy', ⟨l, hl, hc⟩⟩ := run_reaches re b _ _ y h
  split at hy'
  · simp at hy'
  · rename_i hnn
    simp only [Option.some.injEq] at hy'
    subst hy'
    simp only at hl hc
    refine ⟨?_, ?_, ?_⟩
    · rw [hl, hc]
      simp
    · rw [hl, hc]
      simp
    · intro hn
      simpa [hn] using hnn

/-- A search on `t` finds its match inside `t`. -/
theorem searchFrom_rest (re : Regex) (nn : Bool) (t : Text) :
    ∀ (b : Bool) (off k : Nat) (y : MState), searchFrom re nn b off t = some (k, y) →
      off ≤ k ∧ (k - off) + y.consumed + y.rest.length = t.length ∧
        (nn = true → y.consumed ≠ 0) := by
  induction t with
  | nil =>
    intro b off k y h
    simp only [searchFrom, Option.map_eq_some'] at h
    obtain ⟨y', hy', he⟩ := h
    simp only [Prod.mk.injEq] at he
    obtain ⟨rfl, rfl⟩ := he
    obtain ⟨_, h2, h3⟩ := matchHere_rest re b nn [] y' hy'
    exact ⟨le_refl _, by simpa using h2, h3⟩
  | cons a t ih =>
    intro b off k y h
    rw [searchFrom] at h
    split at h
    · rename_i y' hy'
      simp only [Option.some.injEq, Prod.mk.injEq] at h
      obtain ⟨rfl, rfl⟩ := h
      obtain ⟨_, h2, h3⟩ := matchHere_rest re b nn (a :: t) y' hy'
      exact ⟨le_refl _, by simpa using h2, h3⟩
    · obtain ⟨h1, h2, h3⟩ := ih false (off + 1) k y h
      refine ⟨by omega, ?_, h3⟩
      simp only [List.length_cons]
      omega

theorem regex_search_rest (re : Regex) (f : Flags) (t : Text) (k : Nat) (y : MState)
    (h : regex_search re f t = some (k, y)) :
    k + y.consumed + y.rest.length = t.length ∧ (f.notNull = true → y.consumed ≠ 0) := by
  unfold regex_search at h
  split at h
  · simp only [Option.map_eq_some'] at h
    obtain ⟨y', hy', he⟩ := h
    simp only [Prod.mk.injEq] at he
    obtain ⟨rfl, rfl⟩ := he
    obtain ⟨_, h2, h3⟩ := matchHere_rest re _ _ t y' hy'
    exact ⟨by omega, h3⟩
  · obtain ⟨_, h2, h3⟩ := searchFrom_rest re _ t _ 0 k y h
    exact ⟨by omega, h3⟩

/-- The loop of `regex_replace` does not depend on its fuel once the fuel
reaches `loopFuel`: the fuel never runs out. -/
theorem replaceLoop_fuel (re : Regex) (fmt : Text) :
    ∀ (n m : Nat) (pa le : Bool) (rest : Text),
      loopFuel le rest ≤ n → loopFuel le rest ≤ m →
      replaceLoop re fmt n pa le rest = replaceLoop re fmt m pa le rest := by
  intro n
  induction n with
  | zero =>
    intro m pa le rest hn
    unfold loopFuel at hn
    split at hn <;> omega
  | succ n ih =>
    intro m pa le rest hn hm
    cases m with
    | zero =>
      unfold loopFuel at hm
      split at hm <;> omega
    | succ m =>
      cases le with
      | true =>
        cases rest with
        | nil => rfl
        | cons a t =>
          simp only [loopFuel, if_true, List.length_cons] at hn hm
          rw [replaceLoop, replaceLoop]
          cases h1 : regex_search re ⟨true, true, pa⟩ (a :: t) with
          | some r =>
            obtain ⟨off, y⟩ := r
            obtain ⟨hlen, hnn⟩ := regex_search_rest re _ _ off y h1
            have h0 : (y.consumed == 0) = false := by simpa using hnn rfl
            have hpos : y.consumed ≠ 0 := hnn rfl
            simp only [List.length_cons] at hlen
            simp only [h0]
            rw [ih m pa false y.rest (by simp only [loopFuel]; simp; omega)
              (by simp only [loopFuel]; simp; omega)]
          | none =>
            simp only
            cases h2 : regex_search re ⟨false, false, true⟩ t with
            | some r =>
              obtain ⟨off, y⟩ := r
              obtain ⟨hlen, _⟩ := regex_search_rest re _ _ off y h2
              simp only
              rw [ih m true (y.consumed == 0) y.rest
                (by unfold loopFuel; split <;> omega) (by unfold loopFuel; split <;> omega)]
            | none => rfl
      | false =>
        simp only [loopFuel, Bool.false_eq_true, if_false] at hn hm
        rw [replaceLoop, replaceLoop]
        cases h2 : regex_search re ⟨false, false, true⟩ rest with
        | some r =>
          obtain ⟨off, y⟩ := r
          obtain ⟨hlen, _⟩ := regex_search_rest re _ _ off y h2
          simp only
          by_cases hc : y.consumed = 0
          · have h0 : (y.consumed == 0) = true := by simpa using hc
            rw [h0, ih m true true y.rest (by simp only [loopFuel]; simp; omega)
              (by simp only [loopFuel]; simp; omega)]
          · have h0 : (y.consumed == 0) = false := by simpa using hc
            rw [h0, ih m true false y.rest (by simp only [loopFuel]; simp; omega)
              (by simp only [loopFuel]; simp; omega)]
        | none => rfl

/-- The fuel that `regex_replace` gives to its loop is enough: any larger fuel
gives the same result. -/
theorem regex_replace_fuel (s : Text) (re : Regex) (fmt : Text) (off : Nat) (y : MState)
    (h : regex_search re ⟨false, false, false⟩ s = some (off, y)) (n : Nat)
    (hn : 2 * s.length + 2 ≤ n) :
    regex_replace s re fmt =
      s.take off ++ format (mkResults re [] s off y) fmt
        ++ replaceLoop re fmt n false (y.consumed == 0) y.rest := by
  obtain ⟨hlen, _⟩ := regex_search_rest re _ _ off y h
  have hf : loopFuel (y.consumed == 0) y.rest ≤ 2 * s.length + 2 := by
    unfold loopFuel
    split <;> omega
  simp only [regex_replace, h]
  rw [replaceLoop_fuel re fmt (2 * s.length + 2) n false _ y.rest hf (le_trans hf hn)]

/-! ## What a run of `main` can and cannot do -/

/-- The seven patterns of step 6 can all be constructed, so building the table
`options_modifications` before the loop throws nothing. -/
theorem compile_options : ∀ m ∈ options_modifications, (compile m.1).isOk = true := by
  decide

/-- Whatever the files are, `main` either returns 1 or is terminated by the
exception of step 3: it never returns 0 and never leaves the model. -/
theorem main_exit (w : World) : (main w).1 = .returned 1 ∨ (main w).1 = .terminated := by
  rw [(main_effect w).1, mainEffect_eq]
  rcases replaceFile targetRegex targetTemplate (w.files.lookup "src/Makefile") with ⟨b0, m1⟩
  cases b0 with
  | false => exact Or.inl rfl
  | true =>
    simp only [versionEffect]
    rcases replaceFile (versionRegex "VIM_VERSION_MEDIUM") mediumTemplate
      (w.files.lookup "src/version.c") with ⟨b1, v1⟩
    cases b1 with
    | false => exact Or.inl rfl
    | true =>
      simp only
      rcases replaceFile (versionRegex "VIM_VERSION_LONG") longTemplate v1 with ⟨b2, v2⟩
      cases b2 with
      | false => exact Or.inl rfl
      | true => exact Or.inr rfl

/-- The no-op detection of `replace_in_file`: when the substitution returns the
content unchanged, no output stream is opened and `[INFO]` is reported. -/
theorem replace_in_file_noop (path : String) (re : Regex) (fmt : Text) (w : World) (f : File)
    (hf : w.files.lookup path = some f) (hr : f.readable = true)
    (hc : regex_replace f.content re fmt = f.content) :
    replace_in_file path re fmt w =
      (true, w.cout ("[INFO] No changes needed in " ++ path ++ "\n")) := by
  simp [replace_in_file, read_of_lookup w path f hf hr, hc]

/-- Step 5 always writes when the marker is absent: whatever the content of a
readable and writable `src/main.c` without `hide_cursor();`, the step opens the
file for writing and reports `[SUCCESS]`, whether or not the substitution changed
anything. -/
theorem main_step5_always_writes (w : World) (f : File)
    (hf : w.files.lookup "src/main.c" = some f) (hr : f.readable = true)
    (hw : f.writable = true) (hm : ¬ "hide_cursor();".toList <:+: f.content) :
    ∃ w1, main_step5 w = .ok w1 ∧
      w1.log = .cout "[SUCCESS] Inserted 'hide_cursor()' call into 'src/main.c'.\n"
        :: .openedForWrite "src/main.c" false :: w.log := by
  have hfind : (find f.content "hide_cursor();".toList).isNone = true := by
    cases h : (find f.content "hide_cursor();".toList).isNone with
    | true => rfl
    | false =>
      exfalso
      apply hm
      rw [← find_isSome_iff]
      cases hfo : find f.content "hide_cursor();".toList with
      | none => rw [hfo] at h; simp at h
      | some n => rfl
  obtain ⟨w2, h1, _, h3⟩ := openWrite_put w "src/main.c" f false
    (regex_replace f.content exitsetupRegex "mch_exitsetup();\n    hide_cursor();".toList) hf hw
  refine ⟨(w2.put "src/main.c" (regex_replace f.content exitsetupRegex
      "mch_exitsetup();\n    hide_cursor();".toList)).cout
      "[SUCCESS] Inserted 'hide_cursor()' call into 'src/main.c'.\n", ?_, ?_⟩
  · unfold main_step5
    rw [read_of_lookup w _ f hf hr]
    simp only [hfind, if_true, withRegex, compile_exitsetup, h1]
  · show _ :: (w2.put _ _).log = _
    rw [h3]

/-- Step 7 rewrites nothing unless the content itself begins with the call: when
the pattern does not match at the very beginning of the content, the
substitution returns the content unchanged, on whichever later line a call of
`showmode()` stands. -/
theorem showmode_only_at_start (c : Text)
    (h : matchHere showmodeRegex true false c = none) :
    regex_replace c showmodeRegex "$1//showmode();".toList = c := by
  apply regex_replace_anchored_none _ _ _ _ h
  intro s
  unfold matchHere showmodeRegex
  rw [run_seqs_all]
  exact runList_bol_false _ _ _

/-! ## Fail-fast, and where it ends -/

/-- Fail-fast at step 1, read failure: when `src/Makefile` cannot be opened for
reading, `main` returns 1, the files are untouched and the last report is the
error line of step 1. -/
theorem main_fails_reading_makefile (w : World) (h : w.read "src/Makefile" = none) :
    main w = (.returned 1,
      (started w).cerr "[ERROR] Unable to open file for reading: src/Makefile\n") := by
  have hs : (started w).read "src/Makefile" = none := h
  unfold main
  rw [runSteps_mainPlan]
  simp only [replace_in_file, hs]
  rfl

/-- Fail-fast at step 1, write failure: when `src/Makefile` can be read, has a
change to receive and cannot be opened for writing, `main` returns 1, the files
are untouched and the last report is the error line of step 1. -/
theorem main_fails_writing_makefile (w : World) (f : File)
    (hf : w.files.lookup "src/Makefile" = some f) (hr : f.readable = true)
    (hw : f.writable = false)
    (hc : regex_replace f.content targetRegex targetTemplate ≠ f.content) :
    main w = (.returned 1,
      (started w).cerr "[ERROR] Unable to open file for writing: src/Makefile\n") := by
  have hs : (started w).files.lookup "src/Makefile" = some f := hf
  unfold main
  rw [runSteps_mainPlan]
  simp only [replace_in_file, read_of_lookup (started w) _ f hs hr, hc, if_false,
    World.openWrite, hs, hw, Bool.false_eq_true]
  rfl

/-- Fail-fast at step 2: when step 1 has gone through and has left the world `a`,
and `src/version.c` cannot be opened for reading, `main` returns 1 and its final
world is `a` (with what step 1 did to the Makefile) plus the error line of
step 2; nothing of a later step is there. -/
theorem main_fails_reading_version (w a : World)
    (h1 : replace_in_file "src/Makefile" targetRegex targetTemplate (started w) = (true, a))
    (h2 : a.read "src/version.c" = none) :
    main w = (.returned 1,
      a.cerr "[ERROR] Unable to open file for reading: src/version.c\n") := by
  unfold main
  rw [runSteps_mainPlan, h1]
  simp only [replace_in_file, h2]
  rfl

/-- On a file that can be read and written both substitutions of step 2 go
through, and then the pattern of step 3 throws. -/
theorem versionEffect_open (g : File) (hr : g.readable = true) (hw : g.writable = true) :
    (versionEffect (some g)).1 = .terminated := by
  obtain ⟨g1, h1, h1r, h1w⟩ := replaceFile_open (versionRegex "VIM_VERSION_MEDIUM")
    mediumTemplate g hr hw
  obtain ⟨g2, h2, _, _⟩ := replaceFile_open (versionRegex "VIM_VERSION_LONG")
    longTemplate g1 h1r h1w
  simp only [versionEffect, h1, h2]

/-- Where fail-fast ends: when `src/Makefile` and `src/version.c` can be opened
for reading and writing, `main` is terminated by the exception of step 3,
whatever the state of the files of the later steps; it does not return 1 and no
later step is attempted. -/
theorem main_terminated_when_open (w : World) (m v : File)
    (hm : w.files.lookup "src/Makefile" = some m) (hmr : m.readable = true)
    (hmw : m.writable = true)
    (hv : w.files.lookup "src/version.c" = some v) (hvr : v.readable = true)
    (hvw : v.writable = true) :
    (main w).1 = .terminated := by
  obtain ⟨m1, h1, _, _⟩ := replaceFile_open targetRegex targetTemplate m hmr hmw
  rw [(main_effect w).1, mainEffect_eq, hm, hv, h1]
  exact versionEffect_open v hvr hvw

/-- C3 at a failing input: `src/term.c` is the only file that is missing, so step
4 is the first step whose target cannot be opened.  `main` does not return 1:
after steps 1 and 2 the construction of the pattern of step 3 throws, the run
is terminated, step 3 has not been carried out on `src/version.c` and no error
line reports the failure of step 4. -/
theorem main_terminated_with_term_c_missing :
    (World.mk [("src/Makefile", ⟨"TARGET = vim\n".toList, true, true⟩),
        ("src/version.c", ⟨"void do_intro() \x7b \x7d\n".toList, true, true⟩),
        ("src/main.c", ⟨[], true, true⟩), ("src/option.c", ⟨[], true, true⟩),
        ("src/normal.c", ⟨[], true, true⟩)] []).read "src/term.c" = none ∧
    main ⟨[("src/Makefile", ⟨"TARGET = vim\n".toList, true, true⟩),
        ("src/version.c", ⟨"void do_intro() \x7b \x7d\n".toList, true, true⟩),
        ("src/main.c", ⟨[], true, true⟩), ("src/option.c", ⟨[], true, true⟩),
        ("src/normal.c", ⟨[], true, true⟩)], []⟩ =
      (.terminated,
        ⟨[("src/Makefile", ⟨"TARGET = nocursor\n".toList, true, true⟩),
          ("src/version.c", ⟨"void do_intro() \x7b \x7d\n".toList, true, true⟩),
          ("src/main.c", ⟨[], true, true⟩), ("src/option.c", ⟨[], true, true⟩),
          ("src/normal.c", ⟨[], true, true⟩)],
        [.cout "[INFO] No changes needed in src/version.c\n",
          .cout "[INFO] No changes needed in src/version.c\n",
          .cout "[SUCCESS] Modified file: src/Makefile\n",
          .openedForWrite "src/Makefile" false,
          .cout "[START] Initiating Vim-NoCursor source code adjustments...\n"]⟩) ∧
    (main ⟨[("src/Makefile", ⟨"TARGET = vim\n".toList, true, true⟩),
        ("src/version.c", ⟨"void do_intro() \x7b \x7d\n".toList, true, true⟩),
        ("src/main.c", ⟨[], true, true⟩), ("src/option.c", ⟨[], true, true⟩),
        ("src/normal.c", ⟨[], true, true⟩)], []⟩).1 ≠ .returned 1 := by
  decide

end NoCurser
